import Mathlib

/-!
Verification of the content-rendering core of EGP-Graphai
(src/utils/exportContent.ts together with src/types/Content.ts).

The TypeScript renderer walks a recursive `Content` document tree and
produces a flat string under one of two render policies (`TEXT_OPTIONS`,
`MARKDOWN_OPTIONS`), threading a footnote accumulator.  This file embeds
the data model and the rendering functions shallowly: the mutable
`ctx.footnotes` array is modelled by explicit state passing (each render
function returns the rendered string together with the updated footnote
list); everything else in the context is read-only, exactly as in the
source.  JavaScript string truthiness (`obj.strong && ...`) is modelled by
the `truthy` predicate below.
-/

set_option maxHeartbeats 1000000

namespace Graphai

/-- Formatting marks of a text object (`marks?: ("i"|"b"|"woc"|"sc")[]`). -/
inductive Mark where
  | i
  | b
  | woc
  | sc
deriving DecidableEq, Repr

/-- The `footnoteStyle: "inline" | "reference"` field of the options. -/
inductive FootnoteStyle where
  | inline
  | reference
deriving DecidableEq, Repr

/-- `RenderOptions` from src/utils/exportContent.ts. -/
structure RenderOptions where
  includeStrongs : Bool
  includeMorph : Bool
  includeFootnotes : Bool
  footnoteStyle : FootnoteStyle
  paragraphMarker : String
  lineBreakMarker : String
  headingWrapper : String → String
  subtitleWrapper : String → String
  footnoteMarker : Nat → String

mutual
/--
The `Content` type from src/types/Content.ts, disambiguated into the
variants the renderer's structural dispatch distinguishes:
strings, arrays, `{heading}`, `{subtitle}`, `{paragraph: Content}`
wrappers, and the object fallback handled by `renderTextObject`.

The object constructor carries the fields of both `ContentObject` and
`ContentNested`: `text`, `marks`, `foot` (the footnote's `content`
field; its `type` tag is never read by the renderer), `strong`, `morph`,
the `paragraph` flag, the `break` flag (named `brk`: `break` is a Lean
keyword) and the `ContentNested.content` field (named `nested`).  The
`script` and `lemma` fields are never read by the renderer and are
omitted.  Lists and options are mutual inductives (`CList`, `COpt`) so
that all recursion below is structural and computable by the kernel.
-/
inductive Content where
  | str (s : String)
  | seq (items : CList)
  | heading (inner : Content)
  | subtitle (inner : Content)
  | paraWrap (inner : Content)
  | obj (text : Option String) (marks : List Mark) (foot : COpt)
      (strong : Option String) (morph : Option String)
      (paragraph : Bool) (brk : Bool) (nested : COpt) : Content

/-- Arrays of content (`Content[]`). -/
inductive CList where
  | nil
  | cons (head : Content) (tail : CList)

/-- An optional content value (absent or present field). -/
inductive COpt where
  | none
  | some (c : Content)
end

/-- `RenderContext` from src/utils/exportContent.ts; `footnotes` is the
shared accumulator array (modelled by state passing). -/
structure RenderContext where
  options : RenderOptions
  footnotes : List String
  verseNum : Option Nat
  footnotePrefix : Option String

/-- JavaScript truthiness of an optional string field: `undefined` and
the empty string are falsy. -/
def truthy : Option String → Bool
  | Option.none => false
  | Option.some s => !s.isEmpty

/-- `TEXT_OPTIONS` from src/utils/exportContent.ts. -/
def TEXT_OPTIONS : RenderOptions where
  includeStrongs := true
  includeMorph := true
  includeFootnotes := true
  footnoteStyle := FootnoteStyle.inline
  paragraphMarker := "¶ "
  lineBreakMarker := "␤"
  headingWrapper := fun text => "[[" ++ text ++ "]] "
  subtitleWrapper := fun text => "«" ++ text ++ "» "
  footnoteMarker := fun _ => "°"

/-- `MARKDOWN_OPTIONS` from src/utils/exportContent.ts. -/
def MARKDOWN_OPTIONS : RenderOptions where
  includeStrongs := false
  includeMorph := false
  includeFootnotes := true
  footnoteStyle := FootnoteStyle.reference
  paragraphMarker := "\n\n"
  lineBreakMarker := "<br>"
  headingWrapper := fun text => "\n### " ++ text ++ "\n"
  subtitleWrapper := fun text => "> _" ++ text ++ "_"
  footnoteMarker := fun index =>
    "<sup>" ++ String.singleton (Char.ofNat (97 + index % 26)) ++ "</sup>"

/-- The verse-number part of the reference-footnote prefix:
JavaScript interpolates `${ctx.verseNum}` (the literal `undefined` when
the field is absent). -/
def verseNumText : Option Nat → String
  | Option.none => "undefined"
  | Option.some n => toString n

/-- The options variant used to render footnote bodies:
`{ ...ctx.options, includeStrongs: false, includeMorph: false }`. -/
def suppressLex (o : RenderOptions) : RenderOptions :=
  { o with includeStrongs := false, includeMorph := false }

/-- The context under which a footnote body is rendered:
lexicon/parse codes suppressed and the context prefix cleared. -/
def footCtx (ctx : RenderContext) : RenderContext :=
  { ctx with options := suppressLex ctx.options, footnotePrefix := Option.none }

/-- Replace the footnote accumulator of a context (the state threading
of the shared mutable `ctx.footnotes` array). -/
def setFns (ctx : RenderContext) (f : List String) : RenderContext :=
  { ctx with footnotes := f }

@[simp] theorem footCtx_footnotes (ctx : RenderContext) :
    (footCtx ctx).footnotes = ctx.footnotes := rfl

@[simp] theorem footCtx_style (ctx : RenderContext) :
    (footCtx ctx).options.footnoteStyle = ctx.options.footnoteStyle := rfl

@[simp] theorem footCtx_includeFootnotes (ctx : RenderContext) :
    (footCtx ctx).options.includeFootnotes = ctx.options.includeFootnotes := rfl

@[simp] theorem footCtx_marker (ctx : RenderContext) :
    (footCtx ctx).options.footnoteMarker = ctx.options.footnoteMarker := rfl

@[simp] theorem footCtx_fnotePrefix (ctx : RenderContext) :
    (footCtx ctx).footnotePrefix = Option.none := rfl

@[simp] theorem footCtx_verseNum (ctx : RenderContext) :
    (footCtx ctx).verseNum = ctx.verseNum := rfl

@[simp] theorem setFns_footnotes (ctx : RenderContext) (f : List String) :
    (setFns ctx f).footnotes = f := rfl

@[simp] theorem setFns_options (ctx : RenderContext) (f : List String) :
    (setFns ctx f).options = ctx.options := rfl

@[simp] theorem setFns_verseNum (ctx : RenderContext) (f : List String) :
    (setFns ctx f).verseNum = ctx.verseNum := rfl

@[simp] theorem setFns_fnotePrefix (ctx : RenderContext) (f : List String) :
    (setFns ctx f).footnotePrefix = ctx.footnotePrefix := rfl

mutual
/-- `renderContent` from src/utils/exportContent.ts: dispatch on the
structural shape of the node.  Returns the rendered string together with
the updated footnote accumulator. -/
def renderContent : Content → RenderContext → String × List String
  | Content.str s, ctx => (s, ctx.footnotes)
  | Content.seq items, ctx =>
      let r := renderParts items ctx
      (String.join r.1, r.2)
  | Content.heading c, ctx =>
      let r := renderContent c { ctx with footnotePrefix := Option.some "Heading." }
      (ctx.options.headingWrapper r.1, r.2)
  | Content.subtitle c, ctx =>
      let r := renderContent c { ctx with footnotePrefix := Option.some "Subtitle." }
      (ctx.options.subtitleWrapper r.1, r.2)
  | Content.paraWrap c, ctx => renderContent c ctx
  | Content.obj t marks ft st mo pa br _nested, ctx =>
      renderTextObject t marks ft st mo pa br ctx

/-- The `content.map((item) => renderContent(item, ctx))` part of the
array case; `join("")` is applied by the caller. -/
def renderParts : CList → RenderContext → List String × List String
  | CList.nil, ctx => ([], ctx.footnotes)
  | CList.cons c cs, ctx =>
      let r := renderContent c ctx
      let rest := renderParts cs (setFns ctx r.2)
      (r.1 :: rest.1, rest.2)

/-- `renderTextObject` from src/utils/exportContent.ts.  The `parts`
array of the source is rendered here as a concatenation in the same
order: paragraph marker, text (uppercased under an `sc` mark), footnote
marker plus inline body or reference entry, Strong's number, morph code,
line-break marker.  Note that the source never reads the
`ContentNested.content` field in this function: a nested group reaching
this fallback has its inner content dropped. -/
def renderTextObject (t : Option String) (marks : List Mark) (ft : COpt)
    (st mo : Option String) (pa br : Bool) (ctx : RenderContext) :
    String × List String :=
  let partA : String :=
    if pa then
      if ctx.options.footnoteStyle = FootnoteStyle.inline then
        " " ++ ctx.options.paragraphMarker
      else
        ctx.options.paragraphMarker
    else ""
  let text0 := t.getD ""
  let text := if marks.contains Mark.sc then String.mk (text0.data.map Char.toUpper) else text0
  let tailStr : String :=
    (if truthy st && ctx.options.includeStrongs then " " ++ st.getD "" else "")
      ++ (if truthy mo && ctx.options.includeMorph then " (" ++ mo.getD "" ++ ")" else "")
      ++ (if br then ctx.options.lineBreakMarker else "")
  match ft with
  | COpt.some fc =>
      if ctx.options.includeFootnotes then
        let footIndex := ctx.footnotes.length
        let marker := ctx.options.footnoteMarker footIndex
        let body := renderContent fc (footCtx ctx)
        if ctx.options.footnoteStyle = FootnoteStyle.inline then
          let trail : String := if text.isEmpty && !(truthy st) then " " else ""
          (partA ++ text ++ marker ++ "\x7b" ++ body.1 ++ "\x7d" ++ trail ++ tailStr, body.2)
        else
          let pfx := ctx.footnotePrefix.getD (verseNumText ctx.verseNum ++ ".")
          let entry := "- " ++ marker ++ " " ++ pfx ++ " " ++ body.1
          (partA ++ text ++ marker ++ tailStr, body.2 ++ [entry])
      else
        (partA ++ text ++ tailStr, ctx.footnotes)
  | COpt.none => (partA ++ text ++ tailStr, ctx.footnotes)
end

/-- A verse record (`VerseSchema` from src/types/VerseSchema.ts). -/
structure Verse where
  book : String
  chapter : Nat
  verse : Nat
  content : Content

/-- JavaScript `s.padStart(3, "0")`. -/
def padStart3 (s : String) : String :=
  if s.length < 3 then String.mk (List.replicate (3 - s.length) '0') ++ s else s

/-- `text.replace(/^ +/, "")`: drop the leading run of spaces. -/
def trimLeadL (l : List Char) : List Char := l.dropWhile (fun c => c = ' ')

/-- `text.replace(/ +$/, "")`: drop the trailing run of spaces. -/
def trimTrailL (l : List Char) : List Char :=
  (l.reverse.dropWhile (fun c => c = ' ')).reverse

/-- `text.replace(/ +/g, " ")`: collapse each run of spaces to one
(drop a space that is immediately followed by another). -/
def collapseL : List Char → List Char
  | [] => []
  | [c] => [c]
  | a :: b :: rest =>
      if a = ' ' ∧ b = ' ' then collapseL (b :: rest)
      else a :: collapseL (b :: rest)

/-- The closing-punctuation class `[.,;:!?]` of the Markdown cleanup. -/
def isClosingPunct (c : Char) : Bool :=
  c = '.' || c = ',' || c = ';' || c = ':' || c = '!' || c = '?'

/-- `text.replace(/ ([.,;:!?])/g, "$1")`: delete a space immediately
preceding closing punctuation (left-to-right, non-overlapping). -/
def removePunctSpaceL : List Char → List Char
  | [] => []
  | [c] => [c]
  | a :: b :: rest =>
      if a = ' ' ∧ isClosingPunct b then b :: removePunctSpaceL rest
      else a :: removePunctSpaceL (b :: rest)

/-- The post-render cleanup of `convertVerseToText`: remove leading
spaces, remove trailing spaces, collapse multiple spaces. -/
def normalizeTextBody (s : String) : String :=
  String.mk (collapseL (trimTrailL (trimLeadL s.data)))

/-- The render context `convertVerseToText` builds for a verse. -/
def textCtx0 (vnum : Nat) : RenderContext :=
  { options := TEXT_OPTIONS, footnotes := [], verseNum := Option.some vnum,
    footnotePrefix := Option.none }

/-- The cleaned-up verse body of `convertVerseToText`. -/
def textVerseBody (v : Verse) : String :=
  normalizeTextBody (renderContent v.content (textCtx0 v.verse)).1

/-- `convertVerseToText` from src/utils/exportContent.ts. -/
def convertVerseToText (v : Verse) : String :=
  padStart3 (toString v.chapter) ++ ":" ++ padStart3 (toString v.verse)
    ++ " " ++ textVerseBody v

/-- The annotated-text policy with `includeFootnotes` set to false
(the comparison point named by the spec's removal property). -/
def TEXT_OPTIONS_NOFOOT : RenderOptions :=
  { TEXT_OPTIONS with includeFootnotes := false }

/-- The render context of the no-footnotes text conversion. -/
def textCtxNF (vnum : Nat) : RenderContext :=
  { options := TEXT_OPTIONS_NOFOOT, footnotes := [], verseNum := Option.some vnum,
    footnotePrefix := Option.none }

/-- The cleaned-up verse body rendered without footnotes. -/
def textVerseBodyNF (v : Verse) : String :=
  normalizeTextBody (renderContent v.content (textCtxNF v.verse)).1

/-- `convertVerseToText` run under the annotated-text policy with
`include_footnotes = false`. -/
def convertVerseToTextNoFoot (v : Verse) : String :=
  padStart3 (toString v.chapter) ++ ":" ++ padStart3 (toString v.verse)
    ++ " " ++ textVerseBodyNF v

/-- The `("paragraph" in first || first.paragraph)` test of
`convertVerseToMarkdown`, on a single non-array node: true for a
paragraph wrapper (the key is present) and for an object whose
paragraph flag is set; strings and arrays are excluded by the
surrounding `typeof`/`Array.isArray` guards. -/
def isLeadingParaNode : Content → Bool
  | Content.paraWrap _ => true
  | Content.obj _ _ _ _ _ pa _ _ => pa
  | _ => false

/-- The leading-paragraph detection of `convertVerseToMarkdown`: for an
array inspect the first element, for a single non-string node inspect
the node itself. -/
def hasLeadingPara : Content → Bool
  | Content.seq (CList.cons f _) => isLeadingParaNode f
  | Content.seq CList.nil => false
  | Content.str _ => false
  | c => isLeadingParaNode c

/-- `text.replace(/^\n\n/, "")`: strip one leading paragraph marker. -/
def stripLeadingParaMarker (s : String) : String :=
  match s.data with
  | '\n' :: '\n' :: rest => String.mk rest
  | _ => s

/-- The post-render cleanup of `convertVerseToMarkdown`: remove leading
spaces, collapse multiple spaces, remove a space before closing
punctuation. -/
def mdNormalize (s : String) : String :=
  String.mk (removePunctSpaceL (collapseL (trimLeadL s.data)))

/-- The body of `convertVerseToMarkdown` after the heading extraction:
leading-paragraph detection, render, `\n\n`-strip, cleanup, assembly. -/
def mdMain (processed : Content) (headingPfx : String) (vnum : Nat)
    (ctx : RenderContext) : String × List String :=
  let hasPara := hasLeadingPara processed
  let r := renderContent processed ctx
  let text := if hasPara then stripLeadingParaMarker r.1 else r.1
  let text := mdNormalize text
  let paraPfx := if hasPara then "\n" else ""
  (headingPfx ++ paraPfx ++ "<sup>" ++ toString vnum ++ "</sup> " ++ text, r.2)

/-- The leading-heading check of `convertVerseToMarkdown`: an array
content whose first element is a heading object yields the heading's
inner content and the remaining array (`content.slice(1)`). -/
def extractHeading : Content → Option (Content × Content)
  | Content.seq (CList.cons (Content.heading h) rest) =>
      Option.some (h, Content.seq rest)
  | _ => Option.none

/-- `convertVerseToMarkdown` from src/utils/exportContent.ts.  The
chapter footnote accumulator is threaded explicitly. -/
def convertVerseToMarkdown (v : Verse) (chapterFootnotes : List String) :
    String × List String :=
  let ctx : RenderContext :=
    { options := MARKDOWN_OPTIONS, footnotes := chapterFootnotes,
      verseNum := Option.some v.verse, footnotePrefix := Option.none }
  match extractHeading v.content with
  | Option.some (h, processed) =>
      let hr := renderContent h { ctx with footnotePrefix := Option.some "Heading." }
      mdMain processed ("\n### " ++ hr.1 ++ "\n") v.verse (setFns ctx hr.2)
  | Option.none => mdMain v.content "" v.verse ctx

/-- The per-verse loop of the Markdown chapter assembler: convert each
verse in order, threading the chapter footnote accumulator. -/
def convertChapterVerses : List Verse → List String → List String × List String
  | [], fns => ([], fns)
  | v :: vs, fns =>
      let r := convertVerseToMarkdown v fns
      let rest := convertChapterVerses vs r.2
      (r.1 :: rest.1, rest.2)

example :
    (renderContent (Content.str "abc")
      { options := TEXT_OPTIONS, footnotes := [], verseNum := Option.none,
        footnotePrefix := Option.none }).1 = "abc" := rfl

example :
    (renderContent
      (Content.obj (Option.some "God") [] COpt.none (Option.some "H430")
        (Option.none) false false COpt.none)
      { options := TEXT_OPTIONS, footnotes := [], verseNum := Option.none,
        footnotePrefix := Option.none }).1 = "God H430" := by decide

/-- Shorthand for a plain text object. -/
def tObj (t : String) : Content :=
  Content.obj (Option.some t) [] COpt.none Option.none Option.none false false COpt.none

/-- Shorthand for a text object with a Strong's number. -/
def tsObj (t st : String) : Content :=
  Content.obj (Option.some t) [] COpt.none (Option.some st) Option.none false false COpt.none

/-- Shorthand for building array content from a Lean list. -/
def cseq : List Content → CList
  | [] => CList.nil
  | c :: cs => CList.cons c (cseq cs)

example :
    convertVerseToText
      { book := "GEN", chapter := 1, verse := 1,
        content := Content.str "In the beginning God created the heavens and the earth." }
      = "001:001 In the beginning God created the heavens and the earth." := by decide

example :
    convertVerseToText
      { book := "GEN", chapter := 1, verse := 1,
        content := Content.seq (cseq
          [ tsObj "In the beginning" "H7225",
            tsObj " God" "H430",
            Content.obj (Option.some " created") [] COpt.none (Option.some "H1254")
              (Option.some "8804") false false COpt.none ]) }
      = "001:001 In the beginning H7225 God H430 created H1254 (8804)" := by decide

example :
    convertVerseToText
      { book := "GEN", chapter := 50, verse := 23,
        content := Content.seq (cseq
          [ Content.obj Option.none [] (COpt.some (Content.str "Originally verse 50:22."))
              Option.none Option.none false false COpt.none,
            Content.str "et vidit Ephraim filios" ]) }
      = "050:023 °{Originally verse 50:22.} et vidit Ephraim filios" := by decide

example :
    convertVerseToText
      { book := "PSA", chapter := 1, verse := 1,
        content := Content.seq (cseq
          [ Content.obj (Option.some "Blessed is the man") [] COpt.none Option.none
              Option.none false true COpt.none,
            tObj " that walketh not" ]) }
      = "001:001 Blessed is the man␤ that walketh not" := by decide

example :
    convertVerseToMarkdown
      { book := "GEN", chapter := 1, verse := 1,
        content := Content.seq (cseq [tsObj "In the beginning" "H7225", tsObj " God" "H430"]) }
      [] = ("<sup>1</sup> In the beginning God", []) := by decide

example :
    convertVerseToMarkdown
      { book := "GEN", chapter := 1, verse := 1,
        content := Content.seq (cseq
          [ Content.obj (Option.some "In the beginning") [] COpt.none Option.none
              Option.none true false COpt.none ]) }
      [] = ("\n<sup>1</sup> In the beginning", []) := by decide

example :
    (convertVerseToMarkdown
      { book := "GEN", chapter := 1, verse := 1,
        content := Content.seq (cseq
          [ Content.obj (Option.some "God") [] (COpt.some (Content.str "Hebrew: Elohim"))
              Option.none Option.none false false COpt.none,
            tObj " created" ]) }
      []).2 = ["- <sup>a</sup> 1. Hebrew: Elohim"] := by decide

example :
    convertVerseToText
      { book := "GEN", chapter := 2, verse := 4,
        content := Content.seq (cseq
          [ tObj "the ",
            Content.obj (Option.some "Lord") [Mark.sc] COpt.none (Option.some "H3068")
              Option.none false false COpt.none ]) }
      = "002:004 the LORD H3068" := by decide

/-! ## Structural predicates on content trees -/

mutual
/-- No node that the renderer visits carries a footnote.  (The unused
`ContentNested.content` field is not visited by the renderer and is
therefore not inspected.) -/
def noFootnotes : Content → Bool
  | Content.str _ => true
  | Content.seq items => noFootnotesList items
  | Content.heading c => noFootnotes c
  | Content.subtitle c => noFootnotes c
  | Content.paraWrap c => noFootnotes c
  | Content.obj _ _ ft _ _ _ _ _ =>
      match ft with
      | COpt.none => true
      | COpt.some _ => false

/-- `noFootnotes` over an array of content. -/
def noFootnotesList : CList → Bool
  | CList.nil => true
  | CList.cons c cs => noFootnotes c && noFootnotesList cs
end

mutual
/-- Every footnote body in the tree is itself free of footnotes
(no nested footnotes). -/
def nestFree : Content → Bool
  | Content.str _ => true
  | Content.seq items => nestFreeList items
  | Content.heading c => nestFree c
  | Content.subtitle c => nestFree c
  | Content.paraWrap c => nestFree c
  | Content.obj _ _ ft _ _ _ _ _ =>
      match ft with
      | COpt.none => true
      | COpt.some fc => noFootnotes fc

/-- `nestFree` over an array of content. -/
def nestFreeList : CList → Bool
  | CList.nil => true
  | CList.cons c cs => nestFree c && nestFreeList cs
end

/-! ## Frame lemmas for the footnote accumulator -/

mutual
/-- The renderer only ever pushes onto the footnote accumulator: the
output accumulator is the input accumulator plus new entries. -/
theorem renderContent_extends : ∀ (c : Content) (ctx : RenderContext),
    ∃ δ, (renderContent c ctx).2 = ctx.footnotes ++ δ
  | Content.str _, _ => ⟨[], by simp [renderContent]⟩
  | Content.seq items, ctx => by
      obtain ⟨δ, h⟩ := renderParts_extends items ctx
      exact ⟨δ, by simp [renderContent, h]⟩
  | Content.heading c, ctx => by
      obtain ⟨δ, h⟩ := renderContent_extends c
        { ctx with footnotePrefix := Option.some "Heading." }
      exact ⟨δ, by simp [renderContent, h]⟩
  | Content.subtitle c, ctx => by
      obtain ⟨δ, h⟩ := renderContent_extends c
        { ctx with footnotePrefix := Option.some "Subtitle." }
      exact ⟨δ, by simp [renderContent, h]⟩
  | Content.paraWrap c, ctx => by
      obtain ⟨δ, h⟩ := renderContent_extends c ctx
      exact ⟨δ, by simp [renderContent, h]⟩
  | Content.obj t marks ft st mo pa br nested, ctx => by
      obtain ⟨δ, h⟩ := renderTextObject_extends t marks ft st mo pa br ctx
      exact ⟨δ, by simp [renderContent, h]⟩

/-- Accumulator extension for array content. -/
theorem renderParts_extends : ∀ (items : CList) (ctx : RenderContext),
    ∃ δ, (renderParts items ctx).2 = ctx.footnotes ++ δ
  | CList.nil, _ => ⟨[], by simp [renderParts]⟩
  | CList.cons c cs, ctx => by
      obtain ⟨δ₁, h₁⟩ := renderContent_extends c ctx
      obtain ⟨δ₂, h₂⟩ := renderParts_extends cs (setFns ctx (renderContent c ctx).2)
      refine ⟨δ₁ ++ δ₂, ?_⟩
      simp only [renderParts]
      rw [h₂]
      simp [h₁]

/-- Accumulator extension for the text-object fallback. -/
theorem renderTextObject_extends :
    ∀ (t : Option String) (marks : List Mark) (ft : COpt) (st mo : Option String)
      (pa br : Bool) (ctx : RenderContext),
    ∃ δ, (renderTextObject t marks ft st mo pa br ctx).2 = ctx.footnotes ++ δ
  | _, _, COpt.none, _, _, _, _, _ => ⟨[], by simp [renderTextObject]⟩
  | t, marks, COpt.some fc, st, mo, pa, br, ctx => by
      obtain ⟨δ, h⟩ := renderContent_extends fc (footCtx ctx)
      by_cases hf : ctx.options.includeFootnotes
      · by_cases hs : ctx.options.footnoteStyle = FootnoteStyle.inline
        · refine ⟨δ, ?_⟩
          simp only [renderTextObject, hf, hs, if_true, ite_true]
          rw [h]
          simp
        · refine ⟨δ ++ ["- " ++ ctx.options.footnoteMarker ctx.footnotes.length ++ " "
            ++ ctx.footnotePrefix.getD (verseNumText ctx.verseNum ++ ".") ++ " "
            ++ (renderContent fc (footCtx ctx)).1], ?_⟩
          simp only [renderTextObject, hf, hs, if_true, ite_true, ite_false, if_false]
          rw [h]
          simp
      · exact ⟨[], by simp [renderTextObject, hf]⟩
end

mutual
/-- Under an inline footnote style the renderer never pushes onto the
footnote accumulator. -/
theorem renderContent_inline_fns : ∀ (c : Content) (ctx : RenderContext),
    ctx.options.footnoteStyle = FootnoteStyle.inline →
    (renderContent c ctx).2 = ctx.footnotes
  | Content.str _, _, _ => by simp [renderContent]
  | Content.seq items, ctx, h => by
      simp [renderContent, renderParts_inline_fns items ctx h]
  | Content.heading c, ctx, h => by
      simp [renderContent,
        renderContent_inline_fns c { ctx with footnotePrefix := Option.some "Heading." } h]
  | Content.subtitle c, ctx, h => by
      simp [renderContent,
        renderContent_inline_fns c { ctx with footnotePrefix := Option.some "Subtitle." } h]
  | Content.paraWrap c, ctx, h => by
      simp [renderContent, renderContent_inline_fns c ctx h]
  | Content.obj t marks ft st mo pa br nested, ctx, h => by
      simp [renderContent, renderTextObject_inline_fns t marks ft st mo pa br ctx h]

/-- Inline-style accumulator invariance for array content. -/
theorem renderParts_inline_fns : ∀ (items : CList) (ctx : RenderContext),
    ctx.options.footnoteStyle = FootnoteStyle.inline →
    (renderParts items ctx).2 = ctx.footnotes
  | CList.nil, _, _ => by simp [renderParts]
  | CList.cons c cs, ctx, h => by
      have h₁ := renderContent_inline_fns c ctx h
      have h₂ := renderParts_inline_fns cs (setFns ctx (renderContent c ctx).2) h
      simp only [renderParts]
      rw [h₂]
      simp [h₁]

/-- Inline-style accumulator invariance for the text-object fallback. -/
theorem renderTextObject_inline_fns :
    ∀ (t : Option String) (marks : List Mark) (ft : COpt) (st mo : Option String)
      (pa br : Bool) (ctx : RenderContext),
    ctx.options.footnoteStyle = FootnoteStyle.inline →
    (renderTextObject t marks ft st mo pa br ctx).2 = ctx.footnotes
  | _, _, COpt.none, _, _, _, _, _, _ => by simp [renderTextObject]
  | t, marks, COpt.some fc, st, mo, pa, br, ctx, h => by
      have hb : (footCtx ctx).options.footnoteStyle = FootnoteStyle.inline := by simpa using h
      have hbody := renderContent_inline_fns fc (footCtx ctx) hb
      by_cases hf : ctx.options.includeFootnotes
      · simp only [renderTextObject, hf, h, if_true, ite_true]
        rw [hbody]
        simp
      · simp [renderTextObject, hf]
end

mutual
/-- A tree with no footnote fields leaves the accumulator unchanged
under any context. -/
theorem renderContent_nofoot_fns : ∀ (c : Content) (ctx : RenderContext),
    noFootnotes c = true → (renderContent c ctx).2 = ctx.footnotes
  | Content.str _, _, _ => by simp [renderContent]
  | Content.seq items, ctx, h => by
      simp only [noFootnotes] at h
      simp [renderContent, renderParts_nofoot_fns items ctx h]
  | Content.heading c, ctx, h => by
      simp only [noFootnotes] at h
      simp [renderContent,
        renderContent_nofoot_fns c { ctx with footnotePrefix := Option.some "Heading." } h]
  | Content.subtitle c, ctx, h => by
      simp only [noFootnotes] at h
      simp [renderContent,
        renderContent_nofoot_fns c { ctx with footnotePrefix := Option.some "Subtitle." } h]
  | Content.paraWrap c, ctx, h => by
      simp only [noFootnotes] at h
      simp [renderContent, renderContent_nofoot_fns c ctx h]
  | Content.obj t marks COpt.none st mo pa br nested, ctx, _ => by
      simp [renderContent, renderTextObject]
  | Content.obj t marks (COpt.some fc) st mo pa br nested, ctx, h => by
      simp [noFootnotes] at h

/-- `noFootnotes` accumulator invariance for array content. -/
theorem renderParts_nofoot_fns : ∀ (items : CList) (ctx : RenderContext),
    noFootnotesList items = true → (renderParts items ctx).2 = ctx.footnotes
  | CList.nil, _, _ => by simp [renderParts]
  | CList.cons c cs, ctx, h => by
      simp only [noFootnotesList, Bool.and_eq_true] at h
      have h₁ := renderContent_nofoot_fns c ctx h.1
      have h₂ := renderParts_nofoot_fns cs (setFns ctx (renderContent c ctx).2) h.2
      simp only [renderParts]
      rw [h₂]
      simp [h₁]
end

mutual
/-- Lettering invariant: when no footnote body itself contains a
footnote, every new accumulator entry produced by a render is a
reference entry whose marker is computed from the accumulator length at
the moment it is pushed — the entry at overall position `k` carries
`footnoteMarker k`. -/
theorem renderContent_letters : ∀ (c : Content) (ctx : RenderContext),
    nestFree c = true →
    ∃ δ, (renderContent c ctx).2 = ctx.footnotes ++ δ ∧
      ∀ j, j < δ.length → ∃ rest, δ.getD j "" =
        "- " ++ ctx.options.footnoteMarker (ctx.footnotes.length + j) ++ " " ++ rest
  | Content.str _, ctx, _ => ⟨[], by simp [renderContent], by simp⟩
  | Content.seq items, ctx, h => by
      simp only [nestFree] at h
      obtain ⟨δ, h₁, h₂⟩ := renderParts_letters items ctx h
      exact ⟨δ, by simp [renderContent, h₁], h₂⟩
  | Content.heading c, ctx, h => by
      simp only [nestFree] at h
      obtain ⟨δ, h₁, h₂⟩ := renderContent_letters c
        { ctx with footnotePrefix := Option.some "Heading." } h
      exact ⟨δ, by simp [renderContent, h₁], h₂⟩
  | Content.subtitle c, ctx, h => by
      simp only [nestFree] at h
      obtain ⟨δ, h₁, h₂⟩ := renderContent_letters c
        { ctx with footnotePrefix := Option.some "Subtitle." } h
      exact ⟨δ, by simp [renderContent, h₁], h₂⟩
  | Content.paraWrap c, ctx, h => by
      simp only [nestFree] at h
      obtain ⟨δ, h₁, h₂⟩ := renderContent_letters c ctx h
      exact ⟨δ, by simp [renderContent, h₁], h₂⟩
  | Content.obj t marks ft st mo pa br nested, ctx, h => by
      simp only [nestFree] at h
      obtain ⟨δ, h₁, h₂⟩ := renderTextObject_letters t marks ft st mo pa br ctx h
      exact ⟨δ, by simp [renderContent, h₁], h₂⟩

/-- Lettering invariant for array content. -/
theorem renderParts_letters : ∀ (items : CList) (ctx : RenderContext),
    nestFreeList items = true →
    ∃ δ, (renderParts items ctx).2 = ctx.footnotes ++ δ ∧
      ∀ j, j < δ.length → ∃ rest, δ.getD j "" =
        "- " ++ ctx.options.footnoteMarker (ctx.footnotes.length + j) ++ " " ++ rest
  | CList.nil, ctx, _ => ⟨[], by simp [renderParts], by simp⟩
  | CList.cons c cs, ctx, h => by
      simp only [nestFreeList, Bool.and_eq_true] at h
      obtain ⟨δ₁, h₁, p₁⟩ := renderContent_letters c ctx h.1
      obtain ⟨δ₂, h₂, p₂⟩ :=
        renderParts_letters cs (setFns ctx (renderContent c ctx).2) h.2
      refine ⟨δ₁ ++ δ₂, ?_, ?_⟩
      · simp only [renderParts]
        rw [h₂]
        simp [h₁]
      · intro j hj
        by_cases hlt : j < δ₁.length
        · obtain ⟨rest, hr⟩ := p₁ j hlt
          exact ⟨rest, by rw [List.getD_append _ _ _ _ hlt]; exact hr⟩
        · push_neg at hlt
          have hj2 : j - δ₁.length < δ₂.length := by
            simp only [List.length_append] at hj
            omega
          obtain ⟨rest, hr⟩ := p₂ (j - δ₁.length) hj2
          refine ⟨rest, ?_⟩
          rw [List.getD_append_right _ _ _ _ hlt, hr]
          simp only [setFns_footnotes, setFns_options, h₁, List.length_append]
          have harith : ctx.footnotes.length + δ₁.length + (j - δ₁.length) =
              ctx.footnotes.length + j := by omega
          rw [harith]

/-- Lettering invariant for the text-object fallback. -/
theorem renderTextObject_letters :
    ∀ (t : Option String) (marks : List Mark) (ft : COpt) (st mo : Option String)
      (pa br : Bool) (ctx : RenderContext),
    (match ft with
      | COpt.none => true
      | COpt.some fc => noFootnotes fc) = true →
    ∃ δ, (renderTextObject t marks ft st mo pa br ctx).2 = ctx.footnotes ++ δ ∧
      ∀ j, j < δ.length → ∃ rest, δ.getD j "" =
        "- " ++ ctx.options.footnoteMarker (ctx.footnotes.length + j) ++ " " ++ rest
  | _, _, COpt.none, _, _, _, _, _, _ => ⟨[], by simp [renderTextObject], by simp⟩
  | t, marks, COpt.some fc, st, mo, pa, br, ctx, h => by
      simp only at h
      have hbody := renderContent_nofoot_fns fc (footCtx ctx) h
      by_cases hf : ctx.options.includeFootnotes
      · by_cases hs : ctx.options.footnoteStyle = FootnoteStyle.inline
        · refine ⟨[], ?_, by simp⟩
          simp only [renderTextObject, hf, hs, if_true, ite_true]
          rw [hbody]
          simp
        · refine ⟨["- " ++ ctx.options.footnoteMarker ctx.footnotes.length ++ " "
            ++ ctx.footnotePrefix.getD (verseNumText ctx.verseNum ++ ".") ++ " "
            ++ (renderContent fc (footCtx ctx)).1], ?_, ?_⟩
          · simp only [renderTextObject, hf, hs, if_true, ite_true, ite_false, if_false]
            rw [hbody]
            simp
          · intro j hj
            have hj0 : j = 0 := by simpa using Nat.lt_one_iff.mp (by simpa using hj)
            subst hj0
            refine ⟨ctx.footnotePrefix.getD (verseNumText ctx.verseNum ++ ".") ++ " "
              ++ (renderContent fc (footCtx ctx)).1, ?_⟩
            simp [String.append_assoc]
      · exact ⟨[], by simp [renderTextObject, hf], by simp⟩
end

/-- `String.join` distributes over cons. -/
theorem sfoldl_shift : ∀ (l : List String) (s : String),
    l.foldl (fun r t => r ++ t) s = s ++ l.foldl (fun r t => r ++ t) ""
  | [], s => by simp
  | a :: l, s => by
      simp only [List.foldl_cons]
      rw [sfoldl_shift l (s ++ a), sfoldl_shift l ("" ++ a)]
      simp [String.append_assoc]

/-- `String.join (a :: l) = a ++ String.join l`. -/
theorem sjoin_cons (a : String) (l : List String) :
    String.join (a :: l) = a ++ String.join l := by
  simp only [String.join, List.foldl_cons]
  rw [sfoldl_shift l ("" ++ a)]
  simp

/-- The sequence law's right-hand side, written exactly as the spec
states it: render each element of the list in order under the same
policy/verse context (the shared accumulator threading through, as the
single mutable `ctx` object of the source does), and concatenate the
rendered strings with no characters inserted between them. -/
def renderEachConcat : CList → RenderContext → String
  | CList.nil, _ => ""
  | CList.cons c cs, ctx =>
      (renderContent c ctx).1 ++ renderEachConcat cs (setFns ctx (renderContent c ctx).2)

/-- The two sides agree for every list and context. -/
theorem join_renderParts : ∀ (items : CList) (ctx : RenderContext),
    String.join (renderParts items ctx).1 = renderEachConcat items ctx
  | CList.nil, ctx => by simp [renderParts, renderEachConcat, String.join]
  | CList.cons c cs, ctx => by
      simp only [renderParts, renderEachConcat]
      rw [sjoin_cons]
      rw [join_renderParts cs (setFns ctx (renderContent c ctx).2)]

/-! ## Claim theorems -/

/-- Claim C4: for every list `S` of Content values and every context,
rendering the Sequence `S` equals the concatenation of rendering each
element of `S` under the same context, in order, with no characters
inserted between the elements. -/
theorem claim_C4_sequence_concat (items : CList) (ctx : RenderContext) :
    (renderContent (Content.seq items) ctx).1 = renderEachConcat items ctx := by
  simp only [renderContent]
  exact join_renderParts items ctx

/-- Claim C8: the renderer is a pure function of the node and the
context — the embedding returns only the rendered string and the updated
accumulator, and the input tree is untouched (there is no assignment to
any node field anywhere in `renderContent`/`renderTextObject`, which the
by-value embedding reflects).  The one piece of state the renderer
writes, the footnote accumulator, is only ever extended by pushes: the
output accumulator is the input accumulator plus new entries. -/
theorem claim_C8_renderer_frame (c : Content) (ctx : RenderContext) :
    ∃ δ, (renderContent c ctx).2 = ctx.footnotes ++ δ :=
  renderContent_extends c ctx

/-- Claim C10: under an inline-footnote-style policy (the annotated-text
policy), render never appends to the footnote accumulator — the
accumulator is identical before and after the call, so annotated-text
verse conversion always finishes with an empty footnote list. -/
theorem claim_C10_inline_accumulator_unchanged (c : Content) (ctx : RenderContext)
    (h : ctx.options.footnoteStyle = FootnoteStyle.inline) :
    (renderContent c ctx).2 = ctx.footnotes :=
  renderContent_inline_fns c ctx h

/-- Witness for C10: a footnote-bearing verse body rendered under the
annotated-text policy leaves the (initially empty) accumulator empty. -/
theorem claim_C10_witness :
    (textCtx0 1).options.footnoteStyle = FootnoteStyle.inline ∧
    (renderContent
      (Content.obj (Option.some "God") [] (COpt.some (Content.str "Hebrew: Elohim"))
        (Option.some "H430") Option.none false false COpt.none)
      (textCtx0 1)).2 = [] :=
  ⟨rfl,
    claim_C10_inline_accumulator_unchanged
      (Content.obj (Option.some "God") [] (COpt.some (Content.str "Hebrew: Elohim"))
        (Option.some "H430") Option.none false false COpt.none)
      (textCtx0 1) rfl⟩

/-- For a field that is absent or a non-empty string, JavaScript
truthiness coincides with presence. -/
theorem truthy_eq_isSome (st : Option String) (h : st ≠ Option.some "") :
    truthy st = st.isSome := by
  cases st with
  | none => rfl
  | some s =>
      have hs : s ≠ "" := fun he => h (by rw [he])
      have : s.isEmpty = false := by
        cases he : s.isEmpty
        · rfl
        · exact absurd ((String.isEmpty_iff s).mp he) hs
      simp [truthy, this]

/-- Step (a) of the claimed assembly order: the paragraph marker when the
paragraph flag is set, with one leading space first when the policy's
footnote style is inline. -/
def stepA (pa : Bool) (o : RenderOptions) : String :=
  if pa then
    if o.footnoteStyle = FootnoteStyle.inline then " " ++ o.paragraphMarker
    else o.paragraphMarker
  else ""

/-- Step (b): the text, uppercased when an `sc` mark is present. -/
def stepB (t : Option String) (marks : List Mark) : String :=
  if marks.contains Mark.sc then String.mk ((t.getD "").data.map Char.toUpper)
  else t.getD ""

/-- Step (c): the footnote marker and inline body (or, for the reference
style, the marker alone, the entry going to the accumulator) if a
footnote is present and footnotes are included.  The inline trailing
space for footnote-only objects belongs to this step (its exact
condition is the subject of claim C3). -/
def stepC (t : Option String) (marks : List Mark) (ft : COpt) (st : Option String)
    (ctx : RenderContext) : String :=
  match ft with
  | COpt.none => ""
  | COpt.some fc =>
      if ctx.options.includeFootnotes then
        let marker := ctx.options.footnoteMarker ctx.footnotes.length
        if ctx.options.footnoteStyle = FootnoteStyle.inline then
          marker ++ "\x7b" ++ (renderContent fc (footCtx ctx)).1 ++ "\x7d"
            ++ (if (stepB t marks).isEmpty && !(truthy st) then " " else "")
        else marker
      else ""

/-- Step (d): a single space plus the lexicon (Strong's) code if present
and included. -/
def stepD (st : Option String) (o : RenderOptions) : String :=
  if st.isSome && o.includeStrongs then " " ++ st.getD "" else ""

/-- Step (e): a space, an opening parenthesis, the parse (morph) code
and a closing parenthesis, if present and included. -/
def stepE (mo : Option String) (o : RenderOptions) : String :=
  if mo.isSome && o.includeMorph then " (" ++ mo.getD "" ++ ")" else ""

/-- Step (f): the line-break marker if the break flag is set. -/
def stepF (br : Bool) (o : RenderOptions) : String :=
  if br then o.lineBreakMarker else ""

/-- The tail of a rendered text object after the footnote step, written
as the source writes it (JavaScript truthiness on the string fields). -/
def annTail (st mo : Option String) (br : Bool) (o : RenderOptions) : String :=
  (if truthy st && o.includeStrongs then " " ++ st.getD "" else "")
    ++ (if truthy mo && o.includeMorph then " (" ++ mo.getD "" ++ ")" else "")
    ++ (if br then o.lineBreakMarker else "")

/-- A footnote-free text object renders as paragraph part, text and
annotation tail. -/
theorem renderTextObject_none (t : Option String) (marks : List Mark)
    (st mo : Option String) (pa br : Bool) (ctx : RenderContext) :
    (renderTextObject t marks COpt.none st mo pa br ctx).1 =
      stepA pa ctx.options ++ stepB t marks ++ annTail st mo br ctx.options := by
  simp only [renderTextObject, stepA, stepB, annTail]
  try simp [String.append_assoc]

/-- Claim C2: for every text object the rendered string is the
concatenation, in this fixed order, of steps (a)–(f); an absent field
omits its step.  The hypotheses rule out the degenerate
explicitly-empty-string lexicon/parse fields, for which "present" (the
claim) and JavaScript truthiness (the code) differ and which the schema
excludes upstream. -/
theorem claim_C2_text_object_step_order (t : Option String) (marks : List Mark)
    (ft : COpt) (st mo : Option String) (pa br : Bool) (ctx : RenderContext)
    (hst : st ≠ Option.some "") (hmo : mo ≠ Option.some "") :
    (renderTextObject t marks ft st mo pa br ctx).1 =
      stepA pa ctx.options ++ stepB t marks ++ stepC t marks ft st ctx
        ++ stepD st ctx.options ++ stepE mo ctx.options ++ stepF br ctx.options := by
  have hd : stepD st ctx.options =
      (if truthy st && ctx.options.includeStrongs then " " ++ st.getD "" else "") := by
    rw [stepD, truthy_eq_isSome st hst]
  have he : stepE mo ctx.options =
      (if truthy mo && ctx.options.includeMorph then " (" ++ mo.getD "" ++ ")" else "") := by
    rw [stepE, truthy_eq_isSome mo hmo]
  cases ft with
  | none =>
      simp only [renderTextObject, stepA, stepB, stepC, stepF, hd, he]
      simp [String.append_assoc]
  | some fc =>
      by_cases hf : ctx.options.includeFootnotes
      · by_cases hs : ctx.options.footnoteStyle = FootnoteStyle.inline
        · simp only [renderTextObject, stepA, stepB, stepC, stepF, hd, he, hf, hs,
            if_true, ite_true]
          simp [String.append_assoc]
        · simp only [renderTextObject, stepA, stepB, stepC, stepF, hd, he, hf, hs,
            if_true, ite_true, ite_false, if_false]
          simp [String.append_assoc, hs]
      · simp only [renderTextObject, stepA, stepB, stepC, stepF, hd, he, hf,
          ite_false, if_false]
        simp [String.append_assoc]

/-- Witness for C2: the step decomposition evaluated on the BYZ-style
object `{text:"Βοὸζ", foot, strong:"G1003", morph:"N-PRI"}`. -/
theorem claim_C2_witness :
    (Option.some "G1003" : Option String) ≠ Option.some "" ∧
    (Option.some "N-PRI" : Option String) ≠ Option.some "" ∧
    (renderTextObject (Option.some "Βοὸζ") [] (COpt.some (Content.str "N Βοὸζ ⇒ Βόες"))
      (Option.some "G1003") (Option.some "N-PRI") false false (textCtx0 5)).1 =
      stepA false (textCtx0 5).options ++ stepB (Option.some "Βοὸζ") []
        ++ stepC (Option.some "Βοὸζ") [] (COpt.some (Content.str "N Βοὸζ ⇒ Βόες"))
            (Option.some "G1003") (textCtx0 5)
        ++ stepD (Option.some "G1003") (textCtx0 5).options
        ++ stepE (Option.some "N-PRI") (textCtx0 5).options
        ++ stepF false (textCtx0 5).options :=
  ⟨by decide, by decide,
    claim_C2_text_object_step_order (Option.some "Βοὸζ") []
      (COpt.some (Content.str "N Βοὸζ ⇒ Βόες")) (Option.some "G1003")
      (Option.some "N-PRI") false false (textCtx0 5) (by decide) (by decide)⟩

/-! ## Whitespace-normalization lemmas -/

/-- No two consecutive space characters. -/
def noDoubleSpace : List Char → Bool
  | [] => true
  | [_] => true
  | a :: b :: rest => !(a = ' ' && b = ' ') && noDoubleSpace (b :: rest)

/-- The tail of a double-space-free list is double-space-free. -/
theorem noDoubleSpace_tail (a : Char) (l : List Char)
    (h : noDoubleSpace (a :: l) = true) : noDoubleSpace l = true := by
  cases l with
  | nil => rfl
  | cons b r =>
      simp only [noDoubleSpace, Bool.and_eq_true] at h
      exact h.2

/-- Prepending a non-space character preserves double-space-freeness. -/
theorem noDoubleSpace_cons_of_ne (c : Char) (l : List Char) (hc : ¬c = ' ')
    (h : noDoubleSpace l = true) : noDoubleSpace (c :: l) = true := by
  cases l with
  | nil => rfl
  | cons b r =>
      simp only [noDoubleSpace, Bool.and_eq_true]
      refine ⟨?_, h⟩
      simp [hc]

/-- Prepending anything before a non-space head preserves
double-space-freeness. -/
theorem noDoubleSpace_cons_of_head_ne (c : Char) (l : List Char)
    (hl : l.head? ≠ Option.some ' ')
    (h : noDoubleSpace l = true) : noDoubleSpace (c :: l) = true := by
  cases l with
  | nil => rfl
  | cons b r =>
      simp only [noDoubleSpace, Bool.and_eq_true]
      refine ⟨?_, h⟩
      have hb : ¬b = ' ' := fun hb => hl (by rw [hb]; rfl)
      simp [hb]

/-- A list without any space character has no double space. -/
theorem noDoubleSpace_of_no_space : ∀ (l : List Char),
    (∀ c ∈ l, ¬c = ' ') → noDoubleSpace l = true
  | [], _ => rfl
  | [c], _ => rfl
  | a :: b :: rest, h => by
      simp only [noDoubleSpace, Bool.and_eq_true]
      refine ⟨by simp [h a (by simp)], ?_⟩
      exact noDoubleSpace_of_no_space (b :: rest)
        (fun c hc => h c (List.mem_cons_of_mem a hc))

/-- Double-space-freeness of an append, given the junction is safe. -/
theorem noDoubleSpace_append : ∀ (xs ys : List Char),
    noDoubleSpace xs = true → noDoubleSpace ys = true →
    (xs.getLast? ≠ Option.some ' ' ∨ ys.head? ≠ Option.some ' ') →
    noDoubleSpace (xs ++ ys) = true
  | [], ys, _, hy, _ => hy
  | [x], ys, _, hy, hj => by
      rcases hj with hj | hj
      · exact noDoubleSpace_cons_of_ne x ys (fun hx => hj (by rw [hx]; rfl)) hy
      · exact noDoubleSpace_cons_of_head_ne x ys hj hy
  | x :: y :: xs, ys, hx, hy, hj => by
      have htail : noDoubleSpace ((y :: xs) ++ ys) = true := by
        refine noDoubleSpace_append (y :: xs) ys (noDoubleSpace_tail x _ hx) hy ?_
        rcases hj with hj | hj
        · exact Or.inl (by simpa [List.getLast?_cons_cons] using hj)
        · exact Or.inr hj
      simp only [List.cons_append, noDoubleSpace, Bool.and_eq_true] at htail ⊢
      simp only [noDoubleSpace, Bool.and_eq_true] at hx
      exact ⟨hx.1, by simpa using htail⟩

/-- `collapseL` preserves the first character. -/
theorem collapseL_head? : ∀ (l : List Char), (collapseL l).head? = l.head?
  | [] => rfl
  | [_] => rfl
  | a :: b :: rest => by
      by_cases h : a = ' ' ∧ b = ' '
      · simp only [collapseL]
        rw [if_pos h, collapseL_head? (b :: rest)]
        simp [h.1, h.2]
      · simp only [collapseL]
        rw [if_neg h]
        rfl

/-- `collapseL` of a non-empty list is non-empty. -/
theorem collapseL_ne_nil : ∀ (a : Char) (l : List Char),
    collapseL (a :: l) ≠ []
  | _, [] => by simp [collapseL]
  | a, b :: rest => by
      by_cases h : a = ' ' ∧ b = ' '
      · simp only [collapseL]
        rw [if_pos h]
        exact collapseL_ne_nil b rest
      · simp [collapseL, h]

/-- `collapseL` preserves the last character. -/
theorem collapseL_getLast? : ∀ (l : List Char), (collapseL l).getLast? = l.getLast?
  | [] => rfl
  | [_] => rfl
  | a :: b :: rest => by
      by_cases h : a = ' ' ∧ b = ' '
      · simp only [collapseL]
        rw [if_pos h, collapseL_getLast? (b :: rest)]
        simp [List.getLast?_cons_cons]
      · simp only [collapseL]
        rw [if_neg h]
        obtain ⟨t, ht⟩ : ∃ t, collapseL (b :: rest) = b :: t := by
          cases hc : collapseL (b :: rest) with
          | nil => exact absurd hc (collapseL_ne_nil b rest)
          | cons x t =>
              have := collapseL_head? (b :: rest)
              rw [hc] at this
              simp only [List.head?_cons] at this
              injection this with hx
              subst hx
              exact ⟨t, rfl⟩
        rw [ht, List.getLast?_cons_cons, ← ht]
        rw [collapseL_getLast? (b :: rest)]
        simp [List.getLast?_cons_cons]

/-- Output of `collapseL` never has two consecutive spaces. -/
theorem collapseL_noDouble : ∀ (l : List Char),
    noDoubleSpace (collapseL l) = true
  | [] => rfl
  | [_] => rfl
  | a :: b :: rest => by
      by_cases h : a = ' ' ∧ b = ' '
      · simp only [collapseL]
        rw [if_pos h]
        exact collapseL_noDouble (b :: rest)
      · simp only [collapseL]
        rw [if_neg h]
        obtain ⟨t, ht⟩ : ∃ t, collapseL (b :: rest) = b :: t := by
          cases hc : collapseL (b :: rest) with
          | nil => exact absurd hc (collapseL_ne_nil b rest)
          | cons x t =>
              have := collapseL_head? (b :: rest)
              rw [hc] at this
              simp only [List.head?_cons] at this
              injection this with hx
              subst hx
              exact ⟨t, rfl⟩
        rw [ht]
        simp only [noDoubleSpace, Bool.and_eq_true]
        constructor
        · by_cases ha : a = ' '
          · have hb : ¬b = ' ' := fun hb => h ⟨ha, hb⟩
            simp [hb]
          · simp [ha]
        · rw [← ht]
          exact collapseL_noDouble (b :: rest)

/-- The head after dropping leading spaces is not a space. -/
theorem trimLeadL_head? : ∀ (l : List Char),
    (trimLeadL l).head? ≠ Option.some ' '
  | [] => by simp [trimLeadL]
  | c :: rest => by
      by_cases hc : c = ' '
      · simpa [trimLeadL, List.dropWhile_cons, hc] using trimLeadL_head? rest
      · simp [trimLeadL, List.dropWhile_cons, hc]

/-- The last character after dropping trailing spaces is not a space. -/
theorem trimTrailL_getLast? (l : List Char) :
    (trimTrailL l).getLast? ≠ Option.some ' ' := by
  unfold trimTrailL
  rw [List.getLast?_reverse]
  exact trimLeadL_head? l.reverse

/-- `trimTrailL` yields a prefix of its input. -/
theorem trimTrailL_prefix (l : List Char) : ∃ u, trimTrailL l ++ u = l := by
  unfold trimTrailL
  obtain ⟨t, ht⟩ : ∃ t, t ++ l.reverse.dropWhile (fun c => c = ' ') = l.reverse := by
    induction l.reverse with
    | nil => exact ⟨[], rfl⟩
    | cons c r ih =>
        by_cases hc : c = ' '
        · obtain ⟨t, ht⟩ := ih
          exact ⟨c :: t, by simp [List.dropWhile_cons, hc, ht]⟩
        · exact ⟨[], by simp [List.dropWhile_cons, hc]⟩
  refine ⟨t.reverse, ?_⟩
  have := congrArg List.reverse ht
  simpa using this

/-- `trimTrailL` does not create a leading space. -/
theorem trimTrailL_head? (l : List Char) (h : l.head? ≠ Option.some ' ') :
    (trimTrailL l).head? ≠ Option.some ' ' := by
  obtain ⟨u, hu⟩ := trimTrailL_prefix l
  cases ht : trimTrailL l with
  | nil => simp
  | cons a t =>
      rw [ht] at hu
      rw [← hu] at h
      simpa using h

/-- Closing punctuation is never a space. -/
theorem isClosingPunct_ne_space (c : Char) (h : isClosingPunct c = true) :
    ¬c = ' ' := by
  intro hc
  subst hc
  simp [isClosingPunct] at h

/-- `removePunctSpaceL` keeps a non-space head in place. -/
theorem removePunctSpaceL_head_of_ne (b : Char) (rest : List Char) (hb : ¬b = ' ') :
    (removePunctSpaceL (b :: rest)).head? = Option.some b := by
  cases rest with
  | nil => rfl
  | cons c r =>
      have : ¬(b = ' ' ∧ isClosingPunct c) := fun hcon => hb hcon.1
      simp [removePunctSpaceL, this]

/-- `removePunctSpaceL` preserves double-space-freeness. -/
theorem removePunctSpaceL_noDouble : ∀ (l : List Char),
    noDoubleSpace l = true → noDoubleSpace (removePunctSpaceL l) = true
  | [], _ => rfl
  | [_], _ => rfl
  | a :: b :: rest, h => by
      have hab : ¬(a = ' ' ∧ b = ' ') := by
        simp only [noDoubleSpace, Bool.and_eq_true] at h
        intro hcon
        have := h.1
        simp [hcon.1, hcon.2] at this
      have htail : noDoubleSpace (b :: rest) = true := noDoubleSpace_tail a _ h
      by_cases hp : a = ' ' ∧ isClosingPunct b
      · simp only [removePunctSpaceL]
        rw [if_pos hp]
        exact noDoubleSpace_cons_of_ne b _ (isClosingPunct_ne_space b hp.2)
          (removePunctSpaceL_noDouble rest (noDoubleSpace_tail b rest htail))
      · simp only [removePunctSpaceL]
        rw [if_neg hp]
        by_cases ha : a = ' '
        · have hb : ¬b = ' ' := fun hb => hab ⟨ha, hb⟩
          refine noDoubleSpace_cons_of_head_ne a _ ?_
            (removePunctSpaceL_noDouble (b :: rest) htail)
          rw [removePunctSpaceL_head_of_ne b rest hb]
          simp [hb]
        · exact noDoubleSpace_cons_of_ne a _ ha
            (removePunctSpaceL_noDouble (b :: rest) htail)

@[simp] theorem mk_data (l : List Char) : (String.mk l).data = l := rfl

/-- A digit character for each value below ten. -/
theorem digitChar_isDigit (n : Nat) (h : n < 10) : (Nat.digitChar n).isDigit = true := by
  interval_cases n <;> decide

/-- Every character `Nat.toDigitsCore` emits over base ten is a digit. -/
theorem toDigitsCore_digits : ∀ (f n : Nat) (acc : List Char),
    (∀ c ∈ acc, c.isDigit = true) →
    ∀ c ∈ Nat.toDigitsCore 10 f n acc, c.isDigit = true
  | 0, n, acc, hacc => by simpa [Nat.toDigitsCore] using hacc
  | f + 1, n, acc, hacc => by
      have hd : (Nat.digitChar (n % 10)).isDigit = true :=
        digitChar_isDigit (n % 10) (Nat.mod_lt n (by norm_num))
      have hacc2 : ∀ c ∈ Nat.digitChar (n % 10) :: acc, c.isDigit = true := by
        intro c hc
        rcases List.mem_cons.mp hc with h | h
        · rw [h]; exact hd
        · exact hacc c h
      by_cases h0 : n / 10 = 0
      · intro c hc
        simp only [Nat.toDigitsCore] at hc
        rw [if_pos h0] at hc
        exact hacc2 c hc
      · intro c hc
        simp only [Nat.toDigitsCore] at hc
        rw [if_neg h0] at hc
        exact toDigitsCore_digits f (n / 10) (Nat.digitChar (n % 10) :: acc) hacc2 c hc

/-- Every character of a natural number's decimal string is a digit. -/
theorem natRepr_digits (n : Nat) : ∀ c ∈ (Nat.repr n).data, c.isDigit = true := by
  intro c hc
  exact toDigitsCore_digits (n + 1) n [] (by simp) c hc

/-- Every character of the zero-padded number strings is a digit. -/
theorem padStart3_digits (n : Nat) :
    ∀ c ∈ (padStart3 (toString n)).data, c.isDigit = true := by
  intro c hc
  have ht : (toString n : String) = Nat.repr n := rfl
  rw [ht] at hc
  unfold padStart3 at hc
  by_cases h : (Nat.repr n).length < 3
  · rw [if_pos h, String.data_append, mk_data] at hc
    rcases List.mem_append.mp hc with h1 | h1
    · rw [List.eq_of_mem_replicate h1]
      decide
    · exact natRepr_digits n c h1
  · rw [if_neg h] at hc
    exact natRepr_digits n c hc

/-- The padded number strings are non-empty. -/
theorem padStart3_data_ne_nil (s : String) : (padStart3 s).data ≠ [] := by
  unfold padStart3
  by_cases h : s.length < 3
  · rw [if_pos h, String.data_append, mk_data]
    have : 3 - s.length ≠ 0 := by omega
    intro hcon
    rcases List.append_eq_nil.mp hcon with ⟨h1, _⟩
    exact this (by simpa using congrArg List.length h1)
  · rw [if_neg h]
    push_neg at h
    intro hcon
    have hlen : s.length = 0 := by
      show s.data.length = 0
      rw [hcon]
      rfl
    omega

/-- A `some` value of `getLast?` is a member of the list. -/
theorem getLast?_mem' : ∀ (l : List Char) (a : Char),
    l.getLast? = Option.some a → a ∈ l
  | [], _, h => by simp at h
  | [x], a, h => by
      simp only [List.getLast?_singleton] at h
      injection h with h
      rw [h]
      simp
  | x :: y :: r, a, h => by
      rw [List.getLast?_cons_cons] at h
      exact List.mem_cons_of_mem x (getLast?_mem' (y :: r) a h)

/-- A digit-only list does not end with a space. -/
theorem digits_getLast_ne_space (l : List Char)
    (h : ∀ c ∈ l, c.isDigit = true) : l.getLast? ≠ Option.some ' ' := by
  intro hg
  have := h ' ' (getLast?_mem' l ' ' hg)
  exact absurd this (by decide)

/-- A digit-only list contains no space. -/
theorem digits_no_space (l : List Char)
    (h : ∀ c ∈ l, c.isDigit = true) : ∀ c ∈ l, ¬c = ' ' := by
  intro c hc hcon
  have := h c hc
  rw [hcon] at this
  exact absurd this (by decide)

/-- `getLast?` of a cons with non-empty tail is `getLast?` of the tail. -/
theorem getLast?_cons_of_ne_nil (x : Char) (l : List Char) (h : l ≠ []) :
    (x :: l).getLast? = l.getLast? := by
  cases l with
  | nil => exact absurd rfl h
  | cons y r => exact List.getLast?_cons_cons

/-! ## Footnote-span removal (the search/replace of °\x7b...\x7d spans) -/

/-- A character that can take part in neither a span delimiter nor the
regex restrictions: not the footnote marker, not a brace, not a newline
(the `.` of the pattern does not match newlines). -/
def cleanChar (c : Char) : Bool :=
  !(c = '°' || c = '{' || c = '}' || c = '\n')

/-- The global non-greedy removal `text.replace(/°\x7b.*?\x7d/g, "")`,
written as a single left-to-right scan.  The second argument is `none`
outside a candidate span and `some pend` inside one, where `pend` holds
the consumed characters in reverse; a candidate that reaches a newline
or the end of input without a closing brace is emitted literally (the
lazy `.*?` cannot complete a match there, and no later match can begin
inside the failed candidate, which contains no closing brace). -/
def rsGo : List Char → Option (List Char) → List Char
  | [], Option.none => []
  | [], Option.some pend => pend.reverse
  | [c], Option.none => [c]
  | c :: d :: rest, Option.none =>
      if c = '°' ∧ d = '{' then rsGo rest (Option.some ['{', '°'])
      else c :: rsGo (d :: rest) Option.none
  | c :: rest, Option.some pend =>
      if c = '}' then rsGo rest Option.none
      else if c = '\n' then pend.reverse ++ '\n' :: rsGo rest Option.none
      else rsGo rest (c :: pend)

/-- Span removal on strings. -/
def removeSpans (s : String) : String := String.mk (rsGo s.data Option.none)

/-- All characters of a string are clean. -/
def strClean (s : String) : Bool := s.data.all cleanChar

/-- A clean character is copied through by the scan. -/
theorem rsGo_cons_clean (c : Char) (t : List Char) (hc : cleanChar c = true) :
    rsGo (c :: t) Option.none = c :: rsGo t Option.none := by
  have hdeg : ¬c = '°' := by
    intro h
    rw [h] at hc
    simp [cleanChar] at hc
  cases t with
  | nil => rfl
  | cons d r =>
      have : ¬(c = '°' ∧ d = '{') := fun h => hdeg h.1
      simp only [rsGo]
      rw [if_neg this]

/-- A clean prefix is copied through by the scan. -/
theorem rsGo_append_clean : ∀ (s t : List Char), s.all cleanChar = true →
    rsGo (s ++ t) Option.none = s ++ rsGo t Option.none
  | [], _, _ => by simp
  | c :: s, t, h => by
      simp only [List.all_cons, Bool.and_eq_true] at h
      rw [List.cons_append, rsGo_cons_clean c (s ++ t) h.1,
        rsGo_append_clean s t h.2, List.cons_append]

/-- Inside a candidate span, a clean body runs to the closing brace and
the whole span is dropped. -/
theorem rsGo_spanmode : ∀ (b : List Char) (p t : List Char),
    b.all cleanChar = true →
    rsGo (b ++ '}' :: t) (Option.some p) = rsGo t Option.none
  | [], p, t, _ => by
      simp only [List.nil_append, rsGo]
      simp
  | c :: b, p, t, h => by
      simp only [List.all_cons, Bool.and_eq_true] at h
      have hc1 : ¬c = '}' := by
        intro hcon
        rw [hcon] at h
        simp [cleanChar] at h
      have hc2 : ¬c = '\n' := by
        intro hcon
        rw [hcon] at h
        simp [cleanChar] at h
      simp only [List.cons_append, rsGo]
      rw [if_neg hc1, if_neg hc2]
      exact rsGo_spanmode b (c :: p) t h.2

/-- A complete span with a clean body is removed entirely. -/
theorem rsGo_span (b t : List Char) (h : b.all cleanChar = true) :
    rsGo ('°' :: '{' :: (b ++ '}' :: t)) Option.none = rsGo t Option.none := by
  have hsp := rsGo_spanmode b ['{', '°'] t h
  simp only [rsGo]
  simpa using hsp

mutual
/-- Cleanliness for the span-removal property: every string the
annotated-text render will emit is free of `°`, braces and newlines;
every footnote body is itself footnote-free; and no footnote sits on a
footnote-only object (empty rendered text and no truthy Strong's code),
since such objects emit a trailing space outside the removable span. -/
def cleanContent : Content → Bool
  | Content.str s => strClean s
  | Content.seq items => cleanList items
  | Content.heading c => cleanContent c
  | Content.subtitle c => cleanContent c
  | Content.paraWrap c => cleanContent c
  | Content.obj t marks ft st mo _ _ _ =>
      strClean (stepB t marks) && strClean (st.getD "") && strClean (mo.getD "")
        && (match ft with
            | COpt.none => true
            | COpt.some fc =>
                cleanContent fc && noFootnotes fc
                  && !((stepB t marks).isEmpty && !(truthy st)))

/-- `cleanContent` over an array. -/
def cleanList : CList → Bool
  | CList.nil => true
  | CList.cons c cs => cleanContent c && cleanList cs
end

/-- The annotated-text options with chosen lexicon/parse/footnote
switches (the family of options reachable from `TEXT_OPTIONS` during
rendering, including the footnote-body suppression and the
`include_footnotes = false` comparison point). -/
def tvOpts (bs bm ff : Bool) : RenderOptions :=
  { TEXT_OPTIONS with includeStrongs := bs, includeMorph := bm, includeFootnotes := ff }

/-- A context over `tvOpts`. -/
def mkTv (bs bm ff : Bool) (fns : List String) (vn : Option Nat)
    (pfx : Option String) : RenderContext :=
  { options := tvOpts bs bm ff, footnotes := fns, verseNum := vn,
    footnotePrefix := pfx }

@[simp] theorem tvOpts_style (bs bm ff : Bool) :
    (tvOpts bs bm ff).footnoteStyle = FootnoteStyle.inline := rfl

@[simp] theorem tvOpts_ff (bs bm ff : Bool) :
    (tvOpts bs bm ff).includeFootnotes = ff := rfl

@[simp] theorem tvOpts_bs (bs bm ff : Bool) :
    (tvOpts bs bm ff).includeStrongs = bs := rfl

@[simp] theorem tvOpts_bm (bs bm ff : Bool) :
    (tvOpts bs bm ff).includeMorph = bm := rfl

@[simp] theorem tvOpts_pm (bs bm ff : Bool) :
    (tvOpts bs bm ff).paragraphMarker = "¶ " := rfl

@[simp] theorem tvOpts_lb (bs bm ff : Bool) :
    (tvOpts bs bm ff).lineBreakMarker = "␤" := rfl

@[simp] theorem tvOpts_marker (bs bm ff : Bool) (n : Nat) :
    (tvOpts bs bm ff).footnoteMarker n = "°" := rfl

@[simp] theorem mkTv_options (bs bm ff : Bool) (fns : List String)
    (vn : Option Nat) (pfx : Option String) :
    (mkTv bs bm ff fns vn pfx).options = tvOpts bs bm ff := rfl

@[simp] theorem mkTv_footnotes (bs bm ff : Bool) (fns : List String)
    (vn : Option Nat) (pfx : Option String) :
    (mkTv bs bm ff fns vn pfx).footnotes = fns := rfl

@[simp] theorem footCtx_mkTv (bs bm ff : Bool) (fns : List String)
    (vn : Option Nat) (pfx : Option String) :
    footCtx (mkTv bs bm ff fns vn pfx) = mkTv false false ff fns vn Option.none := rfl

@[simp] theorem setFns_mkTv (bs bm ff : Bool) (fns f : List String)
    (vn : Option Nat) (pfx : Option String) :
    setFns (mkTv bs bm ff fns vn pfx) f = mkTv bs bm ff f vn pfx := rfl

@[simp] theorem mkTv_setPrefix (bs bm ff : Bool) (fns : List String)
    (vn : Option Nat) (pfx p : Option String) :
    ({ mkTv bs bm ff fns vn pfx with footnotePrefix := p } : RenderContext)
      = mkTv bs bm ff fns vn p := rfl

@[simp] theorem strClean_append (a b : String) :
    strClean (a ++ b) = (strClean a && strClean b) := by
  simp [strClean, String.data_append, List.all_append]

theorem strClean_ite (c : Prop) [Decidable c] (a b : String)
    (ha : strClean a = true) (hb : strClean b = true) :
    strClean (if c then a else b) = true := by
  by_cases h : c
  · rwa [if_pos h]
  · rwa [if_neg h]

mutual
/-- A clean, footnote-free tree renders (under any annotated-text
options variant) to a clean string. -/
theorem renderContent_clean : ∀ (c : Content) (bs bm ff : Bool)
    (fns : List String) (vn : Option Nat) (pfx : Option String),
    cleanContent c = true → noFootnotes c = true →
    strClean (renderContent c (mkTv bs bm ff fns vn pfx)).1 = true
  | Content.str s, bs, bm, ff, fns, vn, pfx, hc, _ => by
      simpa [renderContent] using hc
  | Content.seq items, bs, bm, ff, fns, vn, pfx, hc, hn => by
      simp only [cleanContent] at hc
      simp only [noFootnotes] at hn
      simpa [renderContent] using renderParts_clean items bs bm ff fns vn pfx hc hn
  | Content.heading c, bs, bm, ff, fns, vn, pfx, hc, hn => by
      simp only [cleanContent] at hc
      simp only [noFootnotes] at hn
      have ih := renderContent_clean c bs bm ff fns vn (Option.some "Heading.") hc hn
      show strClean ((tvOpts bs bm ff).headingWrapper
        (renderContent c (mkTv bs bm ff fns vn (Option.some "Heading."))).1) = true
      have hw : (tvOpts bs bm ff).headingWrapper
          (renderContent c (mkTv bs bm ff fns vn (Option.some "Heading."))).1
          = "[[" ++ (renderContent c (mkTv bs bm ff fns vn (Option.some "Heading."))).1
            ++ "]] " := rfl
      rw [hw]
      simp only [strClean_append, Bool.and_eq_true]
      exact ⟨⟨by decide, ih⟩, by decide⟩
  | Content.subtitle c, bs, bm, ff, fns, vn, pfx, hc, hn => by
      simp only [cleanContent] at hc
      simp only [noFootnotes] at hn
      have ih := renderContent_clean c bs bm ff fns vn (Option.some "Subtitle.") hc hn
      show strClean ((tvOpts bs bm ff).subtitleWrapper
        (renderContent c (mkTv bs bm ff fns vn (Option.some "Subtitle."))).1) = true
      have hw : (tvOpts bs bm ff).subtitleWrapper
          (renderContent c (mkTv bs bm ff fns vn (Option.some "Subtitle."))).1
          = "«" ++ (renderContent c (mkTv bs bm ff fns vn (Option.some "Subtitle."))).1
            ++ "» " := rfl
      rw [hw]
      simp only [strClean_append, Bool.and_eq_true]
      exact ⟨⟨by decide, ih⟩, by decide⟩
  | Content.paraWrap c, bs, bm, ff, fns, vn, pfx, hc, hn => by
      simp only [cleanContent] at hc
      simp only [noFootnotes] at hn
      simpa [renderContent] using renderContent_clean c bs bm ff fns vn pfx hc hn
  | Content.obj t marks COpt.none st mo pa br nested, bs, bm, ff, fns, vn, pfx, hc, _ => by
      simp only [cleanContent, Bool.and_eq_true] at hc
      obtain ⟨⟨⟨ht, hst⟩, hmo⟩, _⟩ := hc
      show strClean
        (renderTextObject t marks COpt.none st mo pa br (mkTv bs bm ff fns vn pfx)).1 = true
      rw [renderTextObject_none]
      simp only [strClean_append, Bool.and_eq_true, mkTv_options]
      refine ⟨⟨?_, ht⟩, ?_⟩
      · simp only [stepA, tvOpts_style, tvOpts_pm]
        refine strClean_ite _ _ _ ?_ (by decide)
        exact strClean_ite _ _ _ (by decide) (by decide)
      · simp only [annTail, tvOpts_bs, tvOpts_bm, tvOpts_lb]
        simp only [strClean_append, Bool.and_eq_true]
        refine ⟨⟨?_, ?_⟩, ?_⟩
        · refine strClean_ite _ _ _ ?_ (by decide)
          simp only [strClean_append, Bool.and_eq_true]
          exact ⟨by decide, hst⟩
        · refine strClean_ite _ _ _ ?_ (by decide)
          simp only [strClean_append, Bool.and_eq_true]
          exact ⟨⟨by decide, hmo⟩, by decide⟩
        · exact strClean_ite _ _ _ (by decide) (by decide)
  | Content.obj t marks (COpt.some fc) st mo pa br nested, bs, bm, ff, fns, vn, pfx, hc, hn => by
      simp only [noFootnotes] at hn
      exact Bool.noConfusion hn

/-- Clean rendering for arrays. -/
theorem renderParts_clean : ∀ (items : CList) (bs bm ff : Bool)
    (fns : List String) (vn : Option Nat) (pfx : Option String),
    cleanList items = true → noFootnotesList items = true →
    strClean (String.join (renderParts items (mkTv bs bm ff fns vn pfx)).1) = true
  | CList.nil, bs, bm, ff, fns, vn, pfx, _, _ => by
      simp [renderParts, String.join]
      decide
  | CList.cons c cs, bs, bm, ff, fns, vn, pfx, hc, hn => by
      simp only [cleanList, Bool.and_eq_true] at hc
      simp only [noFootnotesList, Bool.and_eq_true] at hn
      have ih1 := renderContent_clean c bs bm ff fns vn pfx hc.1 hn.1
      have ih2 := renderParts_clean cs bs bm ff
        (renderContent c (mkTv bs bm ff fns vn pfx)).2 vn pfx hc.2 hn.2
      simp only [renderParts, setFns_mkTv]
      rw [sjoin_cons]
      simp only [strClean_append, Bool.and_eq_true]
      exact ⟨ih1, ih2⟩
end

/-- Counterexample to claim C6 as stated: the Markdown conversion never
trims trailing spaces (its cleanup is leading-trim, collapse and
space-before-punctuation removal only), so a verse body ending in a
space yields a Markdown verse line that ends with whitespace. -/
theorem claim_C6_counterexample :
    convertVerseToMarkdown
      { book := "GEN", chapter := 1, verse := 1, content := Content.str "word " } []
      = ("<sup>1</sup> word ", []) ∧
    ("<sup>1</sup> word " : String).data.getLast? = Option.some ' ' :=
  ⟨by decide, by decide⟩

/-- Claim C6 (amended): after post-render normalization the annotated-
text verse line never contains two consecutive space characters and
never begins with a space; when the cleaned verse body is non-empty the
line does not end with a space either (with an empty body the fixed
`"ccc:vvv "` prefix leaves one trailing space).  The text normalization
collapses runs of spaces and trims both ends; the Markdown
normalization collapses runs of spaces (so its cleaned body also has no
two consecutive spaces), trims the leading side only, and deletes a
space before closing punctuation — so Markdown lines may end in a
space.  Only the space character is normalized. -/
theorem claim_C6_whitespace_normalization (v : Verse) :
    noDoubleSpace (convertVerseToText v).data = true ∧
    (convertVerseToText v).data.head? ≠ Option.some ' ' ∧
    (textVerseBody v ≠ "" → (convertVerseToText v).data.getLast? ≠ Option.some ' ') ∧
    (∀ s : String, noDoubleSpace (mdNormalize s).data = true) := by
  have hA := padStart3_digits v.chapter
  have hB := padStart3_digits v.verse
  have hD : (textVerseBody v).data
      = collapseL (trimTrailL (trimLeadL
          (renderContent v.content (textCtx0 v.verse)).1.data)) := rfl
  have hDnd : noDoubleSpace (textVerseBody v).data = true := by
    rw [hD]
    exact collapseL_noDouble _
  have hDhead : (textVerseBody v).data.head? ≠ Option.some ' ' := by
    rw [hD, collapseL_head?]
    exact trimTrailL_head? _ (trimLeadL_head? _)
  have hDlast : (textVerseBody v).data.getLast? ≠ Option.some ' ' := by
    rw [hD, collapseL_getLast?]
    exact trimTrailL_getLast? _
  have hcolon : (":" : String).data = [':'] := rfl
  have hspace : (" " : String).data = [' '] := rfl
  have hdata : (convertVerseToText v).data =
      (padStart3 (toString v.chapter)).data
        ++ (':' :: ((padStart3 (toString v.verse)).data
          ++ (' ' :: (textVerseBody v).data))) := by
    show (padStart3 (toString v.chapter) ++ ":" ++ padStart3 (toString v.verse)
      ++ " " ++ textVerseBody v).data = _
    rw [String.data_append, String.data_append, String.data_append,
      String.data_append, hcolon, hspace]
    simp [List.append_assoc]
  refine ⟨?_, ?_, ?_, ?_⟩
  · rw [hdata]
    refine noDoubleSpace_append _ _
      (noDoubleSpace_of_no_space _ (digits_no_space _ hA)) ?_
      (Or.inl (digits_getLast_ne_space _ hA))
    refine noDoubleSpace_cons_of_ne ':' _ (by decide) ?_
    refine noDoubleSpace_append _ _
      (noDoubleSpace_of_no_space _ (digits_no_space _ hB)) ?_
      (Or.inl (digits_getLast_ne_space _ hB))
    exact noDoubleSpace_cons_of_head_ne ' ' _ hDhead hDnd
  · rw [hdata]
    cases hAeq : (padStart3 (toString v.chapter)).data with
    | nil => exact absurd hAeq (padStart3_data_ne_nil _)
    | cons a t =>
        simp only [List.cons_append, List.head?_cons]
        intro hcon
        injection hcon with hc
        have hdig := hA a (by rw [hAeq]; exact List.mem_cons_self a t)
        rw [hc] at hdig
        exact absurd hdig (by decide)
  · intro hne
    rw [hdata]
    have hDne : (textVerseBody v).data ≠ [] := fun hc => hne (String.ext hc)
    rw [List.getLast?_append_of_ne_nil _ (by simp)]
    rw [getLast?_cons_of_ne_nil _ _ (by simp)]
    rw [List.getLast?_append_of_ne_nil _ (by simp)]
    rw [getLast?_cons_of_ne_nil _ _ hDne]
    exact hDlast
  · intro s
    exact removePunctSpaceL_noDouble _ (collapseL_noDouble _)

/-- Witness for C6: the three text-line facts on a concrete verse with
non-empty body. -/
theorem claim_C6_witness :
    noDoubleSpace (convertVerseToText
      { book := "GEN", chapter := 1, verse := 1,
        content := Content.str "In the  beginning" }).data = true ∧
    (convertVerseToText
      { book := "GEN", chapter := 1, verse := 1,
        content := Content.str "In the  beginning" }).data.head? ≠ Option.some ' ' ∧
    (convertVerseToText
      { book := "GEN", chapter := 1, verse := 1,
        content := Content.str "In the  beginning" }).data.getLast? ≠ Option.some ' ' := by
  have h := claim_C6_whitespace_normalization
    { book := "GEN", chapter := 1, verse := 1,
      content := Content.str "In the  beginning" }
  exact ⟨h.1, h.2.1, h.2.2.1 (by decide)⟩

/-- Counterexample to claim C3 as stated: for the BYZ-style object
`{strong:"G1", foot:{content:"n"}}` the text is empty, yet no trailing
space is appended after the closing brace — the rendered string is
`"°{n} G1"` (the single space is the Strong's separator of step (d)),
not the `"°{n}  G1"` the claim's unconditional trailing-space rule
would produce. -/
theorem claim_C3_counterexample :
    (renderTextObject Option.none [] (COpt.some (Content.str "n"))
      (Option.some "G1") Option.none false false (textCtx0 1)).1 = "°{n} G1" ∧
    ("°{n} G1" : String) ≠ "°{n}  G1" :=
  ⟨by decide, by decide⟩

/-- The inline-footnote render of a text object, in step form. -/
theorem renderTextObject_inline_shape (t : Option String) (marks : List Mark)
    (fc : Content) (st mo : Option String) (pa br : Bool) (ctx : RenderContext)
    (hs : ctx.options.footnoteStyle = FootnoteStyle.inline)
    (hf : ctx.options.includeFootnotes = true) :
    (renderTextObject t marks (COpt.some fc) st mo pa br ctx).1 =
      stepA pa ctx.options ++ stepB t marks
        ++ ctx.options.footnoteMarker ctx.footnotes.length
        ++ "\x7b" ++ (renderContent fc (footCtx ctx)).1 ++ "\x7d"
        ++ (if (stepB t marks).isEmpty && !(truthy st) then " " else "")
        ++ annTail st mo br ctx.options := by
  simp only [renderTextObject, stepA, stepB, annTail, hf, hs, if_true, ite_true]
  try simp [String.append_assoc]

/-- With footnotes excluded, a footnote-carrying text object renders
exactly as a footnote-free one. -/
theorem renderTextObject_nofoot_shape (t : Option String) (marks : List Mark)
    (fc : Content) (st mo : Option String) (pa br : Bool) (ctx : RenderContext)
    (hf : ctx.options.includeFootnotes = false) :
    (renderTextObject t marks (COpt.some fc) st mo pa br ctx).1 =
      stepA pa ctx.options ++ stepB t marks ++ annTail st mo br ctx.options := by
  simp only [renderTextObject, stepA, stepB, annTail, hf]
  try simp [String.append_assoc]

/-- Claim C3 (amended): for every text object carrying a footnote,
rendered under an inline-footnote-style policy with footnotes included,
the footnote body is rendered with lexicon and parse codes suppressed
(`footCtx`) and appended wrapped in braces directly after the footnote
marker with no space before the opening brace; and exactly one trailing
space is appended after the closing brace when the object's text is
empty *and it carries no (truthy) Strong's code* — the code restricts
the claim's "text is empty" to true footnote-only nodes. -/
theorem claim_C3_inline_footnote_shape (t : Option String) (marks : List Mark)
    (fc : Content) (st mo : Option String) (pa br : Bool) (ctx : RenderContext)
    (hs : ctx.options.footnoteStyle = FootnoteStyle.inline)
    (hf : ctx.options.includeFootnotes = true) :
    (renderTextObject t marks (COpt.some fc) st mo pa br ctx).1 =
      stepA pa ctx.options ++ stepB t marks
        ++ ctx.options.footnoteMarker ctx.footnotes.length
        ++ "\x7b" ++ (renderContent fc (footCtx ctx)).1 ++ "\x7d"
        ++ (if (stepB t marks).isEmpty && !(truthy st) then " " else "")
        ++ annTail st mo br ctx.options :=
  renderTextObject_inline_shape t marks fc st mo pa br ctx hs hf

/-- Witness for C3: the amended shape evaluated on a footnote-only
object (empty text, no Strong's), where the trailing space appears. -/
theorem claim_C3_witness :
    (textCtx0 1).options.footnoteStyle = FootnoteStyle.inline ∧
    (textCtx0 1).options.includeFootnotes = true ∧
    (renderTextObject Option.none [] (COpt.some (Content.str "Originally verse 50:22."))
      Option.none Option.none false false (textCtx0 1)).1 =
      stepA false (textCtx0 1).options ++ stepB Option.none []
        ++ (textCtx0 1).options.footnoteMarker (textCtx0 1).footnotes.length
        ++ "\x7b" ++ (renderContent (Content.str "Originally verse 50:22.")
              (footCtx (textCtx0 1))).1 ++ "\x7d"
        ++ (if (stepB Option.none []).isEmpty && !(truthy Option.none) then " " else "")
        ++ annTail Option.none Option.none false (textCtx0 1).options :=
  ⟨rfl, rfl,
    claim_C3_inline_footnote_shape Option.none []
      (Content.str "Originally verse 50:22.") Option.none Option.none false false
      (textCtx0 1) rfl rfl⟩

/-- Claim C9: under the reference footnote style, for a text object
whose footnote body is itself a footnote-bearing object (whose own body
is footnote-free), the inner footnote's accumulator entry is pushed
during body rendering, before the outer one, and — because the outer
marker's index is read from the accumulator length before the body is
rendered — the inner and outer entries carry the same marker
`footnoteMarker ctx.footnotes.length`, hence the same letter. -/
theorem claim_C9_nested_footnote_same_index (t t2 : Option String)
    (marks marks2 : List Mark) (g : Content) (st mo st2 mo2 : Option String)
    (pa br pa2 br2 : Bool) (nested2 : COpt) (ctx : RenderContext)
    (hs : ctx.options.footnoteStyle = FootnoteStyle.reference)
    (hf : ctx.options.includeFootnotes = true)
    (hg : noFootnotes g = true) :
    ∃ r1 r2,
      (renderTextObject t marks
        (COpt.some (Content.obj t2 marks2 (COpt.some g) st2 mo2 pa2 br2 nested2))
        st mo pa br ctx).2
      = ctx.footnotes
        ++ ["- " ++ ctx.options.footnoteMarker ctx.footnotes.length ++ " " ++ r1,
            "- " ++ ctx.options.footnoteMarker ctx.footnotes.length ++ " " ++ r2] := by
  have hnotinline : ¬ ctx.options.footnoteStyle = FootnoteStyle.inline := by
    rw [hs]
    intro hcon
    exact FootnoteStyle.noConfusion hcon
  have hf2 : (footCtx ctx).options.includeFootnotes = true := by simpa using hf
  have hs2 : ¬ (footCtx ctx).options.footnoteStyle = FootnoteStyle.inline := by
    simpa using hnotinline
  have hginv := renderContent_nofoot_fns g (footCtx (footCtx ctx)) hg
  refine ⟨(verseNumText ctx.verseNum ++ ".") ++ " "
      ++ (renderContent g (footCtx (footCtx ctx))).1,
    ctx.footnotePrefix.getD (verseNumText ctx.verseNum ++ ".") ++ " "
      ++ (renderContent
        (Content.obj t2 marks2 (COpt.some g) st2 mo2 pa2 br2 nested2)
        (footCtx ctx)).1, ?_⟩
  simp only [renderTextObject, renderContent, hf, hf2, hnotinline, hs2,
    if_true, ite_true, ite_false, if_false]
  rw [hginv]
  simp [String.append_assoc]

/-- Witness for C9: a Markdown-policy context, an outer footnote whose
body is the object `{text:"b", foot:{content:"inner"}}`. -/
theorem claim_C9_witness :
    (MARKDOWN_OPTIONS.footnoteStyle = FootnoteStyle.reference) ∧
    (MARKDOWN_OPTIONS.includeFootnotes = true) ∧
    (noFootnotes (Content.str "inner") = true) ∧
    (∃ r1 r2,
      (renderTextObject (Option.some "w") []
        (COpt.some (Content.obj (Option.some "b") []
          (COpt.some (Content.str "inner")) Option.none Option.none false false COpt.none))
        Option.none Option.none false false
        { options := MARKDOWN_OPTIONS, footnotes := [], verseNum := Option.some 1,
          footnotePrefix := Option.none }).2
      = [] ++ ["- " ++ MARKDOWN_OPTIONS.footnoteMarker 0 ++ " " ++ r1,
               "- " ++ MARKDOWN_OPTIONS.footnoteMarker 0 ++ " " ++ r2]) :=
  ⟨rfl, rfl, by decide,
    claim_C9_nested_footnote_same_index (Option.some "w") (Option.some "b") [] []
      (Content.str "inner") Option.none Option.none Option.none Option.none
      false false false false COpt.none
      { options := MARKDOWN_OPTIONS, footnotes := [], verseNum := Option.some 1,
        footnotePrefix := Option.none } rfl rfl (by decide)⟩

/-- `mdMain` writes to the accumulator exactly what its render does. -/
theorem mdMain_letters (processed : Content) (hp : String) (vn : Nat)
    (ctx : RenderContext) (hv : nestFree processed = true) :
    ∃ δ, (mdMain processed hp vn ctx).2 = ctx.footnotes ++ δ ∧
      ∀ j, j < δ.length → ∃ rest, δ.getD j "" =
        "- " ++ ctx.options.footnoteMarker (ctx.footnotes.length + j) ++ " " ++ rest := by
  obtain ⟨δ, h₁, h₂⟩ := renderContent_letters processed ctx hv
  exact ⟨δ, by simpa [mdMain] using h₁, h₂⟩

/-- `extractHeading` preserves `nestFree` on both components. -/
theorem extractHeading_nestFree (c h p : Content)
    (he : extractHeading c = Option.some (h, p)) (hv : nestFree c = true) :
    nestFree h = true ∧ nestFree p = true := by
  unfold extractHeading at he
  split at he
  · rename_i h0 rest
    injection he with he1
    injection he1 with heh hep
    subst heh
    subst hep
    simp only [nestFree, nestFreeList, Bool.and_eq_true] at hv ⊢
    exact ⟨hv.1, hv.2⟩
  · exact absurd he (by simp)

/-- Per-verse lettering: converting one verse to Markdown with a
nest-free content tree extends the chapter accumulator with entries
whose markers are computed from the accumulator length at push time. -/
theorem convertVerseToMarkdown_letters (v : Verse) (fns : List String)
    (hv : nestFree v.content = true) :
    ∃ δ, (convertVerseToMarkdown v fns).2 = fns ++ δ ∧
      ∀ j, j < δ.length → ∃ rest, δ.getD j "" =
        "- " ++ MARKDOWN_OPTIONS.footnoteMarker (fns.length + j) ++ " " ++ rest := by
  cases he : extractHeading v.content with
  | none =>
      obtain ⟨δ, h₁, h₂⟩ := mdMain_letters v.content "" v.verse
        { options := MARKDOWN_OPTIONS, footnotes := fns,
          verseNum := Option.some v.verse, footnotePrefix := Option.none } hv
      refine ⟨δ, ?_, h₂⟩
      simp only [convertVerseToMarkdown, he]
      exact h₁
  | some hp =>
      obtain ⟨h, p⟩ := hp
      obtain ⟨hnh, hnp⟩ := extractHeading_nestFree v.content h p he hv
      obtain ⟨δ₁, h₁, p₁⟩ := renderContent_letters h
        { options := MARKDOWN_OPTIONS, footnotes := fns,
          verseNum := Option.some v.verse, footnotePrefix := Option.some "Heading." } hnh
      obtain ⟨δ₂, h₂, p₂⟩ := mdMain_letters p
        ("\n### " ++ (renderContent h
          { options := MARKDOWN_OPTIONS, footnotes := fns,
            verseNum := Option.some v.verse,
            footnotePrefix := Option.some "Heading." }).1 ++ "\n") v.verse
        (setFns
          { options := MARKDOWN_OPTIONS, footnotes := fns,
            verseNum := Option.some v.verse, footnotePrefix := Option.none }
          (renderContent h
            { options := MARKDOWN_OPTIONS, footnotes := fns,
              verseNum := Option.some v.verse,
              footnotePrefix := Option.some "Heading." }).2) hnp
      refine ⟨δ₁ ++ δ₂, ?_, ?_⟩
      · simp only [convertVerseToMarkdown, he]
        rw [h₂]
        simp only [setFns_footnotes]
        rw [h₁]
        simp [List.append_assoc]
      · intro j hj
        by_cases hlt : j < δ₁.length
        · obtain ⟨rest, hr⟩ := p₁ j hlt
          exact ⟨rest, by rw [List.getD_append _ _ _ _ hlt]; exact hr⟩
        · push_neg at hlt
          have hj2 : j - δ₁.length < δ₂.length := by
            simp only [List.length_append] at hj
            omega
          obtain ⟨rest, hr⟩ := p₂ (j - δ₁.length) hj2
          refine ⟨rest, ?_⟩
          rw [List.getD_append_right _ _ _ _ hlt, hr]
          simp only [setFns_footnotes, setFns_options, h₁, List.length_append]
          have harith : fns.length + δ₁.length + (j - δ₁.length) = fns.length + j := by
            omega
          rw [harith]

/-- Chapter-level lettering: folding `convertVerseToMarkdown` over a
list of nest-free verses pushes entries markered by their overall
position in the chapter accumulator. -/
theorem convertChapterVerses_letters : ∀ (vs : List Verse) (fns : List String),
    (∀ v ∈ vs, nestFree v.content = true) →
    ∃ δ, (convertChapterVerses vs fns).2 = fns ++ δ ∧
      ∀ j, j < δ.length → ∃ rest, δ.getD j "" =
        "- " ++ MARKDOWN_OPTIONS.footnoteMarker (fns.length + j) ++ " " ++ rest
  | [], fns, _ => ⟨[], by simp [convertChapterVerses], by simp⟩
  | v :: vs, fns, hv => by
      obtain ⟨δ₁, h₁, p₁⟩ := convertVerseToMarkdown_letters v fns
        (hv v (List.mem_cons_self v vs))
      obtain ⟨δ₂, h₂, p₂⟩ := convertChapterVerses_letters vs
        (convertVerseToMarkdown v fns).2
        (fun w hw => hv w (List.mem_cons_of_mem v hw))
      refine ⟨δ₁ ++ δ₂, ?_, ?_⟩
      · simp only [convertChapterVerses]
        rw [h₂, h₁]
        simp [List.append_assoc]
      · intro j hj
        by_cases hlt : j < δ₁.length
        · obtain ⟨rest, hr⟩ := p₁ j hlt
          exact ⟨rest, by rw [List.getD_append _ _ _ _ hlt]; exact hr⟩
        · push_neg at hlt
          have hj2 : j - δ₁.length < δ₂.length := by
            simp only [List.length_append] at hj
            omega
          obtain ⟨rest, hr⟩ := p₂ (j - δ₁.length) hj2
          refine ⟨rest, ?_⟩
          rw [List.getD_append_right _ _ _ _ hlt, hr, h₁]
          simp only [List.length_append]
          have harith : fns.length + δ₁.length + (j - δ₁.length) = fns.length + j := by
            omega
          rw [harith]

/-- Counterexample to claim C7 as stated: a chapter whose single verse
carries a footnote whose body itself carries a footnote.  Two footnotes
are encountered; the claim assigns the second (k = 1) the letter
`chr(97 + 1 % 26) = 'b'` and an index equal to the accumulator length
before its entry is pushed, yet both accumulator entries carry
`<sup>a</sup>`: the inner footnote (second encountered, pushed first)
reads index 0, and the outer entry (pushed second, at length 1) was
markered from the length read before its body was rendered. -/
theorem claim_C7_counterexample :
    (convertChapterVerses
      [{ book := "GEN", chapter := 1, verse := 1,
         content := Content.seq (cseq
           [ Content.obj (Option.some "w") []
               (COpt.some (Content.obj (Option.some "b") []
                 (COpt.some (Content.str "inner")) Option.none Option.none
                 false false COpt.none))
               Option.none Option.none false false COpt.none ]) }] []).2
      = ["- <sup>a</sup> 1. inner", "- <sup>a</sup> 1. b<sup>a</sup>"] ∧
    Char.ofNat (97 + 1 % 26) = 'b' ∧
    ("- <sup>a</sup> 1. inner" : String) ≠ "- <sup>b</sup> 1. inner" ∧
    ("- <sup>a</sup> 1. b<sup>a</sup>" : String) ≠ "- <sup>b</sup> 1. b<sup>a</sup>" :=
  ⟨by decide, by decide, by decide, by decide⟩

/-- Claim C7 (amended): for every chapter rendered under the reference
(Markdown) footnote style *in which no footnote body itself contains a
footnote*, the k-th footnote of the chapter (counting from 0, across all
verses) is assigned the accumulator length at its push as its index, and
its marker letter is `chr(97 + k % 26)`, cycling after `z` with no
numeric suffix on wraparound. -/
theorem claim_C7_chapter_lettering (vs : List Verse)
    (hv : ∀ v ∈ vs, nestFree v.content = true) :
    ∀ k, k < ((convertChapterVerses vs []).2).length →
      ∃ rest, ((convertChapterVerses vs []).2).getD k "" =
        "- " ++ ("<sup>" ++ String.singleton (Char.ofNat (97 + k % 26)) ++ "</sup>")
          ++ " " ++ rest := by
  intro k hk
  obtain ⟨δ, h₁, h₂⟩ := convertChapterVerses_letters vs [] hv
  rw [h₁] at hk ⊢
  simp only [List.nil_append] at hk ⊢
  obtain ⟨rest, hr⟩ := h₂ k (by simpa using hk)
  refine ⟨rest, ?_⟩
  rw [hr]
  simp [MARKDOWN_OPTIONS]

/-- The two-footnote chapter used to witness C7. -/
def c7WitnessVerse : Verse :=
  { book := "GEN", chapter := 1, verse := 1,
    content := Content.seq (cseq
      [ Content.obj (Option.some "x") [] (COpt.some (Content.str "n1"))
          Option.none Option.none false false COpt.none,
        Content.obj (Option.some "y") [] (COpt.some (Content.str "n2"))
          Option.none Option.none false false COpt.none ]) }

/-- Witness for C7: a chapter with two plain footnotes; the second (k=1)
is lettered `b`. -/
theorem claim_C7_witness :
    (∀ v ∈ [c7WitnessVerse], nestFree v.content = true) ∧
    (∃ rest, ((convertChapterVerses [c7WitnessVerse] []).2).getD 1 "" =
        "- " ++ ("<sup>" ++ String.singleton (Char.ofNat (97 + 1 % 26)) ++ "</sup>")
          ++ " " ++ rest) :=
  ⟨by decide,
    claim_C7_chapter_lettering [c7WitnessVerse] (by decide) 1 (by decide)⟩

/-- Claim C1 (code bug): `renderContent` has no branch for the Nested
Group variant (`ContentNested`), although src/types/Content.ts requires
its `content` field and the repository's own documentation
(\_specs/ai-context/4-domains/content-verses.md, quoting
utils/exportContent.ts) shows a `renderNestedContent` dispatch branch.
A nested group falls through to `renderTextObject`, which never reads
the `content` field, so the inner content is silently dropped: the
documented example node `{content: [{text:"The"},{text:" "},
{text:"book"}], strong:"G976", morph:"N-NSF"}` renders as
`" G976 (N-NSF)"` even though its inner content alone renders as
`"The book"` — not as the spec's rule 6 (inner rendering with the
group's annotations applied around it) demands. -/
theorem claim_C1_nested_group_content_dropped :
    (renderContent
      (Content.obj Option.none [] COpt.none (Option.some "G976") (Option.some "N-NSF")
        false false
        (COpt.some (Content.seq (cseq [tObj "The", tObj " ", tObj "book"]))))
      (textCtx0 1)).1 = " G976 (N-NSF)" ∧
    (renderContent (Content.seq (cseq [tObj "The", tObj " ", tObj "book"]))
      (textCtx0 1)).1 = "The book" ∧
    (" G976 (N-NSF)" : String) ≠ "The book G976 (N-NSF)" := by
  refine ⟨by decide, by decide, by decide⟩

/-- The paragraph part of an annotated-text render is clean. -/
theorem strClean_stepA (pa bs bm ff : Bool) :
    strClean (stepA pa (tvOpts bs bm ff)) = true := by
  simp only [stepA, tvOpts_style, tvOpts_pm]
  refine strClean_ite _ _ _ ?_ (by decide)
  exact strClean_ite _ _ _ (by decide) (by decide)

/-- The annotation tail of an annotated-text render is clean when the
Strong's and morph fields are. -/
theorem strClean_annTail (st mo : Option String) (br bs bm ff : Bool)
    (hst : strClean (st.getD "") = true) (hmo : strClean (mo.getD "") = true) :
    strClean (annTail st mo br (tvOpts bs bm ff)) = true := by
  simp only [annTail, tvOpts_bs, tvOpts_bm, tvOpts_lb]
  simp only [strClean_append, Bool.and_eq_true]
  refine ⟨⟨?_, ?_⟩, ?_⟩
  · refine strClean_ite _ _ _ ?_ (by decide)
    simp only [strClean_append, Bool.and_eq_true]
    exact ⟨by decide, hst⟩
  · refine strClean_ite _ _ _ ?_ (by decide)
    simp only [strClean_append, Bool.and_eq_true]
    exact ⟨⟨by decide, hmo⟩, by decide⟩
  · exact strClean_ite _ _ _ (by decide) (by decide)

/-- String-level span removal: a clean head, a complete span with a
clean body, and a clean tail reduce to head plus tail. -/
theorem rs_span_str (A B T : String) (t : List Char)
    (hA : strClean A = true) (hB : strClean B = true) (hT : strClean T = true) :
    rsGo ((A ++ "°" ++ "\x7b" ++ B ++ "\x7d" ++ T).data ++ t) Option.none
      = (A ++ T).data ++ rsGo t Option.none := by
  have hdeg : ("°" : String).data = ['°'] := rfl
  have hob : ("\x7b" : String).data = ['{'] := rfl
  have hcb : ("\x7d" : String).data = ['}'] := rfl
  rw [String.data_append, String.data_append, String.data_append,
    String.data_append, String.data_append, String.data_append,
    hdeg, hob, hcb]
  rw [List.append_assoc, List.append_assoc, List.append_assoc,
    List.append_assoc, List.append_assoc]
  rw [rsGo_append_clean A.data _ hA]
  have hshape : (['°'] ++ (['{'] ++ (B.data ++ (['}'] ++ (T.data ++ t)))))
      = '°' :: '{' :: (B.data ++ '}' :: (T.data ++ t)) := by simp
  rw [hshape, rsGo_span B.data (T.data ++ t) hB, rsGo_append_clean T.data t hT]
  simp [List.append_assoc]

mutual
/-- Core of the span-removal property: for clean content, removing the
`°\x7b...\x7d` spans from the with-footnotes annotated-text render (with
any continuation `t`) yields the `include_footnotes = false` render
followed by the continuation's own removal.  The accumulators and
context prefixes on the two sides are arbitrary: under the inline style
they do not influence the rendered string. -/
theorem rs_renderContent : ∀ (c : Content) (bs bm : Bool) (f1 f2 : List String)
    (vn : Option Nat) (p1 p2 : Option String) (t : List Char),
    cleanContent c = true →
    rsGo ((renderContent c (mkTv bs bm true f1 vn p1)).1.data ++ t) Option.none
      = (renderContent c (mkTv bs bm false f2 vn p2)).1.data ++ rsGo t Option.none
  | Content.str s, bs, bm, f1, f2, vn, p1, p2, t, hc => by
      simp only [cleanContent] at hc
      simp only [renderContent]
      exact rsGo_append_clean s.data t hc
  | Content.seq items, bs, bm, f1, f2, vn, p1, p2, t, hc => by
      simp only [cleanContent] at hc
      simp only [renderContent]
      exact rs_renderParts items bs bm f1 f2 vn p1 p2 t hc
  | Content.heading c, bs, bm, f1, f2, vn, p1, p2, t, hc => by
      simp only [cleanContent] at hc
      have hwr : ∀ (s : String) (b1 b2 b3 : Bool),
          (tvOpts b1 b2 b3).headingWrapper s = "[[" ++ s ++ "]] " :=
        fun _ _ _ _ => rfl
      show rsGo (((tvOpts bs bm true).headingWrapper
          (renderContent c (mkTv bs bm true f1 vn (Option.some "Heading."))).1).data ++ t)
          Option.none
        = ((tvOpts bs bm false).headingWrapper
          (renderContent c (mkTv bs bm false f2 vn (Option.some "Heading."))).1).data
          ++ rsGo t Option.none
      rw [hwr, hwr]
      rw [String.data_append, String.data_append, String.data_append,
        String.data_append]
      rw [List.append_assoc, List.append_assoc]
      rw [rsGo_append_clean _ _ (by decide)]
      rw [rs_renderContent c bs bm f1 f2 vn (Option.some "Heading.")
        (Option.some "Heading.") (("]] " : String).data ++ t) hc]
      rw [rsGo_append_clean (("]] " : String).data) t (by decide)]
      simp [List.append_assoc]
  | Content.subtitle c, bs, bm, f1, f2, vn, p1, p2, t, hc => by
      simp only [cleanContent] at hc
      have hwr : ∀ (s : String) (b1 b2 b3 : Bool),
          (tvOpts b1 b2 b3).subtitleWrapper s = "«" ++ s ++ "» " :=
        fun _ _ _ _ => rfl
      show rsGo (((tvOpts bs bm true).subtitleWrapper
          (renderContent c (mkTv bs bm true f1 vn (Option.some "Subtitle."))).1).data ++ t)
          Option.none
        = ((tvOpts bs bm false).subtitleWrapper
          (renderContent c (mkTv bs bm false f2 vn (Option.some "Subtitle."))).1).data
          ++ rsGo t Option.none
      rw [hwr, hwr]
      rw [String.data_append, String.data_append, String.data_append,
        String.data_append]
      rw [List.append_assoc, List.append_assoc]
      rw [rsGo_append_clean _ _ (by decide)]
      rw [rs_renderContent c bs bm f1 f2 vn (Option.some "Subtitle.")
        (Option.some "Subtitle.") (("» " : String).data ++ t) hc]
      rw [rsGo_append_clean (("» " : String).data) t (by decide)]
      simp [List.append_assoc]
  | Content.paraWrap c, bs, bm, f1, f2, vn, p1, p2, t, hc => by
      simp only [cleanContent] at hc
      simp only [renderContent]
      exact rs_renderContent c bs bm f1 f2 vn p1 p2 t hc
  | Content.obj tx marks ft st mo pa br nested, bs, bm, f1, f2, vn, p1, p2, t, hc => by
      simp only [renderContent]
      exact rs_renderTextObject tx marks ft st mo pa br nested bs bm f1 f2 vn p1 p2 t hc

/-- Span removal over an array render. -/
theorem rs_renderParts : ∀ (items : CList) (bs bm : Bool) (f1 f2 : List String)
    (vn : Option Nat) (p1 p2 : Option String) (t : List Char),
    cleanList items = true →
    rsGo ((String.join (renderParts items (mkTv bs bm true f1 vn p1)).1).data ++ t)
      Option.none
      = (String.join (renderParts items (mkTv bs bm false f2 vn p2)).1).data
        ++ rsGo t Option.none
  | CList.nil, bs, bm, f1, f2, vn, p1, p2, t, _ => by
      have hnil : (String.join ([] : List String)).data = [] := rfl
      simp only [renderParts, hnil]
      simp
  | CList.cons c cs, bs, bm, f1, f2, vn, p1, p2, t, hc => by
      simp only [cleanList, Bool.and_eq_true] at hc
      simp only [renderParts, setFns_mkTv]
      rw [sjoin_cons, sjoin_cons, String.data_append, String.data_append,
        List.append_assoc]
      rw [rs_renderContent c bs bm f1 f2 vn p1 p2 _ hc.1]
      rw [rs_renderParts cs bs bm (renderContent c (mkTv bs bm true f1 vn p1)).2
        (renderContent c (mkTv bs bm false f2 vn p2)).2 vn p1 p2 t hc.2]
      simp [List.append_assoc]

/-- Span removal over a text-object render. -/
theorem rs_renderTextObject : ∀ (tx : Option String) (marks : List Mark)
    (ft : COpt) (st mo : Option String) (pa br : Bool) (nested : COpt)
    (bs bm : Bool)
    (f1 f2 : List String) (vn : Option Nat) (p1 p2 : Option String)
    (t : List Char),
    cleanContent (Content.obj tx marks ft st mo pa br nested) = true →
    rsGo ((renderTextObject tx marks ft st mo pa br (mkTv bs bm true f1 vn p1)).1.data
        ++ t) Option.none
      = (renderTextObject tx marks ft st mo pa br (mkTv bs bm false f2 vn p2)).1.data
        ++ rsGo t Option.none
  | tx, marks, COpt.none, st, mo, pa, br, nested, bs, bm, f1, f2, vn, p1, p2, t, hc => by
      simp only [cleanContent, Bool.and_eq_true] at hc
      obtain ⟨⟨⟨ht, hst⟩, hmo⟩, _⟩ := hc
      rw [renderTextObject_none, renderTextObject_none]
      simp only [mkTv_options]
      have heq : stepA pa (tvOpts bs bm false) ++ stepB tx marks
          ++ annTail st mo br (tvOpts bs bm false)
          = stepA pa (tvOpts bs bm true) ++ stepB tx marks
            ++ annTail st mo br (tvOpts bs bm true) := rfl
      rw [heq]
      refine rsGo_append_clean _ t ?_
      have : strClean (stepA pa (tvOpts bs bm true) ++ stepB tx marks
          ++ annTail st mo br (tvOpts bs bm true)) = true := by
        simp only [strClean_append, Bool.and_eq_true]
        exact ⟨⟨strClean_stepA pa bs bm true, ht⟩,
          strClean_annTail st mo br bs bm true hst hmo⟩
      exact this
  | tx, marks, COpt.some fc, st, mo, pa, br, nested, bs, bm, f1, f2, vn, p1, p2, t, hc => by
      simp only [cleanContent, Bool.and_eq_true] at hc
      obtain ⟨⟨⟨ht, hst⟩, hmo⟩, ⟨⟨hfc, hnf⟩, hnotonly⟩⟩ := hc
      have hcond : ¬(((stepB tx marks).isEmpty && !(truthy st)) = true) := by
        simp only [Bool.not_eq_true'] at hnotonly
        rw [hnotonly]
        exact Bool.false_ne_true
      rw [renderTextObject_inline_shape tx marks fc st mo pa br
        (mkTv bs bm true f1 vn p1) (by simp) (by simp)]
      rw [renderTextObject_nofoot_shape tx marks fc st mo pa br
        (mkTv bs bm false f2 vn p2) (by simp)]
      rw [if_neg hcond]
      simp only [mkTv_options, mkTv_footnotes, tvOpts_marker, footCtx_mkTv]
      have hmarker : stepA pa (tvOpts bs bm true) ++ stepB tx marks ++ "°" ++ "\x7b"
          ++ (renderContent fc (mkTv false false true f1 vn Option.none)).1 ++ "\x7d"
          ++ "" ++ annTail st mo br (tvOpts bs bm true)
          = (stepA pa (tvOpts bs bm true) ++ stepB tx marks) ++ "°" ++ "\x7b"
          ++ (renderContent fc (mkTv false false true f1 vn Option.none)).1 ++ "\x7d"
          ++ annTail st mo br (tvOpts bs bm true) := by
        simp [String.append_assoc]
      rw [hmarker]
      have heq : stepA pa (tvOpts bs bm false) ++ stepB tx marks
          ++ annTail st mo br (tvOpts bs bm false)
          = (stepA pa (tvOpts bs bm true) ++ stepB tx marks)
            ++ annTail st mo br (tvOpts bs bm true) := by
        have h1 : stepA pa (tvOpts bs bm false) = stepA pa (tvOpts bs bm true) := rfl
        have h2 : annTail st mo br (tvOpts bs bm false)
            = annTail st mo br (tvOpts bs bm true) := rfl
        rw [h1, h2, String.append_assoc]
      rw [heq]
      refine rs_span_str (stepA pa (tvOpts bs bm true) ++ stepB tx marks)
        (renderContent fc (mkTv false false true f1 vn Option.none)).1
        (annTail st mo br (tvOpts bs bm true)) t ?_ ?_ ?_
      · simp only [strClean_append, Bool.and_eq_true]
        exact ⟨strClean_stepA pa bs bm true, ht⟩
      · exact renderContent_clean fc false false true f1 vn Option.none hfc hnf
      · exact strClean_annTail st mo br bs bm true hst hmo
end

/-- Dropping leading spaces is the identity on a string that has none. -/
theorem trimLeadL_id (l : List Char) (h : l.head? ≠ Option.some ' ') :
    trimLeadL l = l := by
  cases l with
  | nil => rfl
  | cons c r =>
      have hc : ¬c = ' ' := fun hcon => h (by rw [hcon]; rfl)
      simp [trimLeadL, List.dropWhile_cons, hc]

/-- Dropping trailing spaces is the identity on a string that has none. -/
theorem trimTrailL_id (l : List Char) (h : l.getLast? ≠ Option.some ' ') :
    trimTrailL l = l := by
  unfold trimTrailL
  have hrev : l.reverse.head? ≠ Option.some ' ' := by
    rw [List.head?_reverse]
    exact h
  rw [show l.reverse.dropWhile (fun c => c = ' ') = trimLeadL l.reverse from rfl]
  rw [trimLeadL_id l.reverse hrev, List.reverse_reverse]

/-- Collapsing spaces is the identity on a double-space-free string. -/
theorem collapseL_id : ∀ (l : List Char), noDoubleSpace l = true → collapseL l = l
  | [], _ => rfl
  | [_], _ => rfl
  | a :: b :: rest, h => by
      have hab : ¬(a = ' ' ∧ b = ' ') := by
        simp only [noDoubleSpace, Bool.and_eq_true] at h
        intro hcon
        have h1 := h.1
        simp [hcon.1, hcon.2] at h1
      simp only [collapseL]
      rw [if_neg hab, collapseL_id (b :: rest) (noDoubleSpace_tail a _ h)]

/-- A string that the text cleanup leaves unchanged: no double spaces
and no leading or trailing space. -/
def alreadyNormalized (s : String) : Bool :=
  noDoubleSpace s.data && !(s.data.head? == Option.some ' ')
    && !(s.data.getLast? == Option.some ' ')

/-- The cleanup is the identity on an already-normalized string. -/
theorem normalizeTextBody_id (s : String) (h : alreadyNormalized s = true) :
    normalizeTextBody s = s := by
  simp only [alreadyNormalized, Bool.and_eq_true, Bool.not_eq_true',
    beq_eq_false_iff_ne, ne_eq] at h
  obtain ⟨⟨hnd, hh⟩, hl⟩ := h
  unfold normalizeTextBody
  rw [trimLeadL_id s.data hh, trimTrailL_id s.data hl, collapseL_id s.data hnd]

/-- `Nat.digitChar` emits clean characters below ten. -/
theorem digitChar_clean (n : Nat) (h : n < 10) :
    cleanChar (Nat.digitChar n) = true := by
  interval_cases n <;> decide

/-- `Nat.toDigitsCore` emits clean characters over base ten. -/
theorem toDigitsCore_clean : ∀ (f n : Nat) (acc : List Char),
    (∀ c ∈ acc, cleanChar c = true) →
    ∀ c ∈ Nat.toDigitsCore 10 f n acc, cleanChar c = true
  | 0, n, acc, hacc => by simpa [Nat.toDigitsCore] using hacc
  | f + 1, n, acc, hacc => by
      have hd : cleanChar (Nat.digitChar (n % 10)) = true :=
        digitChar_clean (n % 10) (Nat.mod_lt n (by norm_num))
      have hacc2 : ∀ c ∈ Nat.digitChar (n % 10) :: acc, cleanChar c = true := by
        intro c hc
        rcases List.mem_cons.mp hc with h | h
        · rw [h]; exact hd
        · exact hacc c h
      by_cases h0 : n / 10 = 0
      · intro c hc
        simp only [Nat.toDigitsCore] at hc
        rw [if_pos h0] at hc
        exact hacc2 c hc
      · intro c hc
        simp only [Nat.toDigitsCore] at hc
        rw [if_neg h0] at hc
        exact toDigitsCore_clean f (n / 10) (Nat.digitChar (n % 10) :: acc) hacc2 c hc

/-- The padded number strings contain only clean characters. -/
theorem padStart3_clean (n : Nat) :
    (padStart3 (toString n)).data.all cleanChar = true := by
  rw [List.all_eq_true]
  intro c hc
  have ht : (toString n : String) = Nat.repr n := rfl
  rw [ht] at hc
  unfold padStart3 at hc
  by_cases h : (Nat.repr n).length < 3
  · rw [if_pos h, String.data_append, mk_data] at hc
    rcases List.mem_append.mp hc with h1 | h1
    · rw [List.eq_of_mem_replicate h1]
      decide
    · exact toDigitsCore_clean (n + 1) n [] (by simp) c h1
  · rw [if_neg h] at hc
    exact toDigitsCore_clean (n + 1) n [] (by simp) c hc

/-- Counterexample to claim C5 as stated: a footnote-only object (the
CLV-style textless footnote) emits one space after its closing brace,
outside the removable span, so span removal leaves an extra space that
the `include_footnotes = false` render does not have. -/
theorem claim_C5_counterexample :
    removeSpans (convertVerseToText
      { book := "GEN", chapter := 1, verse := 1,
        content := Content.seq (cseq
          [ Content.obj Option.none [] (COpt.some (Content.str "n")) Option.none
              Option.none false false COpt.none,
            Content.str "word" ]) }) = "001:001  word" ∧
    convertVerseToTextNoFoot
      { book := "GEN", chapter := 1, verse := 1,
        content := Content.seq (cseq
          [ Content.obj Option.none [] (COpt.some (Content.str "n")) Option.none
              Option.none false false COpt.none,
            Content.str "word" ]) } = "001:001 word" ∧
    ("001:001  word" : String) ≠ "001:001 word" :=
  ⟨by decide, by decide, by decide⟩

/-- Claim C5 (amended): for every verse whose content is clean for span
removal — no `°`/brace/newline characters in its strings, footnote-free
footnote bodies, and no footnote on a footnote-only object — and whose
rendered body needs no whitespace cleanup (with and without footnotes;
otherwise normalization can merge spaces that the footnote span
separated), deleting every `°\x7b...\x7d` span (matched non-greedily)
from the verse's annotated-text output yields exactly the output of the
annotated-text conversion with `include_footnotes = false`. -/
theorem claim_C5_span_removal (v : Verse)
    (hc : cleanContent v.content = true)
    (h1 : alreadyNormalized (renderContent v.content (textCtx0 v.verse)).1 = true)
    (h2 : alreadyNormalized (renderContent v.content (textCtxNF v.verse)).1 = true) :
    removeSpans (convertVerseToText v) = convertVerseToTextNoFoot v := by
  have e1 : textCtx0 v.verse
      = mkTv true true true [] (Option.some v.verse) Option.none := rfl
  have e2 : textCtxNF v.verse
      = mkTv true true false [] (Option.some v.verse) Option.none := rfl
  have hbody : textVerseBody v = (renderContent v.content (textCtx0 v.verse)).1 := by
    unfold textVerseBody
    exact normalizeTextBody_id _ h1
  have hbodyNF : textVerseBodyNF v
      = (renderContent v.content (textCtxNF v.verse)).1 := by
    unfold textVerseBodyNF
    exact normalizeTextBody_id _ h2
  have hW : rsGo (renderContent v.content (textCtx0 v.verse)).1.data Option.none
      = (renderContent v.content (textCtxNF v.verse)).1.data := by
    have hmain := rs_renderContent v.content true true [] []
      (Option.some v.verse) Option.none Option.none [] hc
    rw [e1, e2]
    simpa [show rsGo ([] : List Char) Option.none = [] from rfl] using hmain
  have hcolon : (":" : String).data = [':'] := rfl
  have hspace : (" " : String).data = [' '] := rfl
  have hdata1 : (convertVerseToText v).data =
      (padStart3 (toString v.chapter)).data
        ++ (':' :: ((padStart3 (toString v.verse)).data
          ++ (' ' :: (renderContent v.content (textCtx0 v.verse)).1.data))) := by
    show (padStart3 (toString v.chapter) ++ ":" ++ padStart3 (toString v.verse)
      ++ " " ++ textVerseBody v).data = _
    rw [hbody, String.data_append, String.data_append, String.data_append,
      String.data_append, hcolon, hspace]
    simp [List.append_assoc]
  have hdata2 : (convertVerseToTextNoFoot v).data =
      (padStart3 (toString v.chapter)).data
        ++ (':' :: ((padStart3 (toString v.verse)).data
          ++ (' ' :: (renderContent v.content (textCtxNF v.verse)).1.data))) := by
    show (padStart3 (toString v.chapter) ++ ":" ++ padStart3 (toString v.verse)
      ++ " " ++ textVerseBodyNF v).data = _
    rw [hbodyNF, String.data_append, String.data_append, String.data_append,
      String.data_append, hcolon, hspace]
    simp [List.append_assoc]
  refine String.ext ?_
  show rsGo (convertVerseToText v).data Option.none = (convertVerseToTextNoFoot v).data
  rw [hdata1, hdata2]
  rw [rsGo_append_clean _ _ (padStart3_clean v.chapter)]
  rw [rsGo_cons_clean ':' _ (by decide)]
  rw [rsGo_append_clean _ _ (padStart3_clean v.verse)]
  rw [rsGo_cons_clean ' ' _ (by decide)]
  rw [hW]

/-- Witness for C5: a clean footnoted verse where removal of the span
reproduces the no-footnotes output. -/
theorem claim_C5_witness :
    cleanContent (Content.seq (cseq
      [ Content.obj (Option.some "God") [] (COpt.some (Content.str "Hebrew: Elohim"))
          (Option.some "H430") Option.none false false COpt.none,
        Content.str " created" ])) = true ∧
    alreadyNormalized (renderContent (Content.seq (cseq
      [ Content.obj (Option.some "God") [] (COpt.some (Content.str "Hebrew: Elohim"))
          (Option.some "H430") Option.none false false COpt.none,
        Content.str " created" ])) (textCtx0 1)).1 = true ∧
    alreadyNormalized (renderContent (Content.seq (cseq
      [ Content.obj (Option.some "God") [] (COpt.some (Content.str "Hebrew: Elohim"))
          (Option.some "H430") Option.none false false COpt.none,
        Content.str " created" ])) (textCtxNF 1)).1 = true ∧
    removeSpans (convertVerseToText
      { book := "GEN", chapter := 1, verse := 1,
        content := Content.seq (cseq
          [ Content.obj (Option.some "God") []
              (COpt.some (Content.str "Hebrew: Elohim"))
              (Option.some "H430") Option.none false false COpt.none,
            Content.str " created" ]) })
      = convertVerseToTextNoFoot
        { book := "GEN", chapter := 1, verse := 1,
          content := Content.seq (cseq
            [ Content.obj (Option.some "God") []
                (COpt.some (Content.str "Hebrew: Elohim"))
                (Option.some "H430") Option.none false false COpt.none,
              Content.str " created" ]) } :=
  ⟨by decide, by decide, by decide,
    claim_C5_span_removal
      { book := "GEN", chapter := 1, verse := 1,
        content := Content.seq (cseq
          [ Content.obj (Option.some "God") []
              (COpt.some (Content.str "Hebrew: Elohim"))
              (Option.some "H430") Option.none false false COpt.none,
            Content.str " created" ]) }
      (by decide) (by decide) (by decide)⟩

end Graphai
